import Mathlib

/-!
Verification development for the EE package reporter.

The development shallowly embeds the two Python modules
`ee_inventory_to_xml.py` (inventory extraction) and `ee_xml_diff_report.py`
(diff/report generation).  Python strings are modeled as Lean `String`
(processed through their `List Char` data), Python dicts as insertion-ordered
association lists (`dinsert` updates the value in place for an existing key,
as CPython dicts do), JSON values as the inductive `Json`, exceptions as
`Option`, and `datetime` values as `Nat` (an order embedding; `datetime.min`
is the least element `0`).  Recursive text scanners take an explicit fuel
argument (always called with fuel larger than the input length) so that every
definition reduces inside the kernel.
-/

namespace EEReport

/-! ## Python string primitives -/

/-- ASCII whitespace used by Python `str.strip` (the model ignores the rare
non-ASCII unicode whitespace characters, which never occur in this data). -/
def pyIsSpace (c : Char) : Bool :=
  c == ' ' || c == '\t' || c == '\n' || c == '\r' || c == '\x0b' || c == '\x0c'

def pyStripCL (cs : List Char) : List Char :=
  ((cs.dropWhile pyIsSpace).reverse.dropWhile pyIsSpace).reverse

/-- Model of Python `str.strip()`. -/
def pyStrip (s : String) : String := ⟨pyStripCL s.data⟩

def isPrefixCL : List Char → List Char → Bool
  | [], _ => true
  | _ :: _, [] => false
  | p :: ps, c :: cs => p == c && isPrefixCL ps cs

/-- Fueled worker for `str.split(sep)` with a non-empty separator: splits on
every non-overlapping occurrence, scanned left to right.  The fuel is always
called with more than the input length, and every step consumes at least one
character, so the fuel is never exhausted in practice. -/
def splitOnFuel (sep : List Char) : Nat → List Char → List (List Char)
  | _, [] => [[]]
  | 0, s => [s]
  | fuel + 1, c :: rest =>
    if isPrefixCL sep (c :: rest) then
      [] :: splitOnFuel sep fuel (rest.drop (sep.length - 1))
    else
      match splitOnFuel sep fuel rest with
      | [] => [[c]]
      | l :: ls => (c :: l) :: ls

/-- Model of Python `str.split(sep)` for a non-empty separator (Python raises
on an empty separator; the source never passes one). -/
def pySplit (s : String) (sep : String) : List String :=
  match sep.data with
  | [] => [s]
  | sc :: scs =>
    (splitOnFuel (sc :: scs) (s.data.length + 1) s.data).map (fun l => (⟨l⟩ : String))

/-- Line-boundary characters recognised by Python `str.splitlines`. -/
def isLineBreak (c : Char) : Bool :=
  c == '\n' || c == '\r' || c == '\x0b' || c == '\x0c' ||
  c == '\x1c' || c == '\x1d' || c == '\x1e' || c == '\x85' ||
  c == '\u2028' || c == '\u2029'

def pySplitlinesCL : List Char → List (List Char)
  | [] => []
  | '\r' :: '\n' :: rest => [] :: pySplitlinesCL rest
  | c :: rest =>
    if isLineBreak c then [] :: pySplitlinesCL rest
    else
      match pySplitlinesCL rest with
      | [] => [[c]]
      | l :: ls => (c :: l) :: ls

/-- Model of Python `str.splitlines()` (no trailing empty line for a trailing
newline, and `\r\n` counts as a single boundary). -/
def pySplitlines (s : String) : List String :=
  (pySplitlinesCL s.data).map (fun l => (⟨l⟩ : String))

/-- Model of Python `c in s` for a single-character needle. -/
def pyContainsChar (s : String) (c : Char) : Bool := s.data.contains c

/-- Model of Python `str.lower()` (ASCII case folding; the data never contains
non-ASCII cased letters). -/
def pyLower (s : String) : String := ⟨s.data.map Char.toLower⟩

/-! ## Insertion-ordered dictionaries (Python `dict`) -/

/-- A CPython dict assignment `d[k] = v`: an existing key keeps its position
(and its original key object) and gets the new value; a new key is appended. -/
def dinsert {κ ν : Type} [DecidableEq κ] : List (κ × ν) → κ → ν → List (κ × ν)
  | [], k, v => [(k, v)]
  | (k0, v0) :: rest, k, v =>
    if k0 = k then (k0, v) :: rest else (k0, v0) :: dinsert rest k v

def dlookup {κ ν : Type} [DecidableEq κ] : List (κ × ν) → κ → Option ν
  | [], _ => none
  | (k0, v0) :: rest, k => if k0 = k then some v0 else dlookup rest k

def dkeys {κ ν : Type} (d : List (κ × ν)) : List κ := d.map Prod.fst

/-- The `index_by` helper of the report module: builds `{keyfunc(it): it}`
in iteration order, later items overwriting earlier ones with the same key. -/
def index_by {ι κ : Type} [DecidableEq κ] (items : List ι) (keyfunc : ι → κ) :
    List (κ × ι) :=
  items.foldl (fun d it => dinsert d (keyfunc it) it) []

/-- First-defined option, modeling chained Python `dict.get` fallbacks. -/
def oFirst {α : Type} : Option α → Option α → Option α
  | some a, _ => some a
  | none, b => b

/-! ## JSON values (results of `json.loads`) -/

/-- JSON values as produced by `json.loads`; objects carry their fields in
insertion order with distinct keys (the loader below deduplicates with
`dinsert` exactly as the Python parser does).  Numbers are modeled as
integers: every number in this data is an integer, and the loader rejects
fractional or exponent forms. -/
inductive Json where
  | null : Json
  | bool (b : Bool) : Json
  | num (n : Int) : Json
  | str (s : String) : Json
  | arr (elems : List Json) : Json
  | obj (fields : List (String × Json)) : Json

/-- Python truthiness of a JSON-shaped value. -/
def pyTruthy : Json → Bool
  | .null => false
  | .bool b => b
  | .num n => n != 0
  | .str s => s != ""
  | .arr l => !l.isEmpty
  | .obj l => !l.isEmpty

/-- Quote character chosen by Python `repr` for a string. -/
def pyReprQuote (s : String) : Char :=
  if s.data.contains '\'' && !(s.data.contains '"') then '"' else '\''

/-- Character escaping of Python `repr` for strings (backslash, the chosen
quote, and the common control characters; other non-printables are left
as-is in this model). -/
def pyReprEsc (q c : Char) : List Char :=
  if c == '\\' then ['\\', '\\']
  else if c == q then ['\\', q]
  else if c == '\n' then ['\\', 'n']
  else if c == '\r' then ['\\', 'r']
  else if c == '\t' then ['\\', 't']
  else [c]

def pyReprStr (s : String) : String :=
  let q := pyReprQuote s
  ⟨q :: s.data.foldr (fun c acc => pyReprEsc q c ++ acc) [q]⟩

mutual

/-- Python `repr` of a JSON-shaped value (what `str` falls back to for
containers). -/
def pyRepr : Json → String
  | .null => "None"
  | .bool true => "True"
  | .bool false => "False"
  | .num n => toString n
  | .str s => pyReprStr s
  | .arr es => "[" ++ String.intercalate ", " (pyReprList es) ++ "]"
  | .obj fs => "\x7b" ++ String.intercalate ", " (pyReprFields fs) ++ "\x7d"

def pyReprList : List Json → List String
  | [] => []
  | j :: js => pyRepr j :: pyReprList js

def pyReprFields : List (String × Json) → List String
  | [] => []
  | (k, v) :: fs => (pyReprStr k ++ ": " ++ pyRepr v) :: pyReprFields fs

end

/-- Python `str()` of a JSON-shaped value. -/
def pyStr : Json → String
  | .str s => s
  | j => pyRepr j

/-! ## A small JSON reader modeling `json.loads`

Supports objects, arrays, strings (with the usual escapes), integers,
booleans and null — the subset occurring in this program's data.  Any other
input is a parse failure, which the callers below turn into the same result
as a raised exception in the Python code. -/

def jsonWsChar (c : Char) : Bool := c == ' ' || c == '\t' || c == '\n' || c == '\r'

def skipWs (cs : List Char) : List Char := cs.dropWhile jsonWsChar

def isDigitCh (c : Char) : Bool := '0' ≤ c && c ≤ '9'

/-- Value of a hexadecimal digit character (0-9, a-f, A-F), by code point. -/
def hexVal (c : Char) : Option Nat :=
  let n := c.toNat
  if 48 ≤ n ∧ n ≤ 57 then some (n - 48)
  else if 97 ≤ n ∧ n ≤ 102 then some (n - 87)
  else if 65 ≤ n ∧ n ≤ 70 then some (n - 55)
  else none

def jsonStringBody : Nat → List Char → Option (List Char × List Char)
  | 0, _ => none
  | _, [] => none
  | fuel + 1, c :: rest =>
    if c == '"' then some ([], rest)
    else if c == '\\' then
      match rest with
      | [] => none
      | e :: rest2 =>
        let dec : Option (Char × List Char) :=
          if e == '"' then some ('"', rest2)
          else if e == '\\' then some ('\\', rest2)
          else if e == '/' then some ('/', rest2)
          else if e == 'n' then some ('\n', rest2)
          else if e == 't' then some ('\t', rest2)
          else if e == 'r' then some ('\r', rest2)
          else if e == 'b' then some ('\x08', rest2)
          else if e == 'f' then some ('\x0c', rest2)
          else if e == 'u' then
            match rest2 with
            | h1 :: h2 :: h3 :: h4 :: rest3 =>
              match hexVal h1, hexVal h2, hexVal h3, hexVal h4 with
              | some a, some b, some c2, some d =>
                some (Char.ofNat (((a * 16 + b) * 16 + c2) * 16 + d), rest3)
              | _, _, _, _ => none
            | _ => none
          else none
        match dec with
        | some (ch, rest3) =>
          match jsonStringBody fuel rest3 with
          | some (cs, rem) => some (ch :: cs, rem)
          | none => none
        | none => none
    else
      match jsonStringBody fuel rest with
      | some (cs, rem) => some (c :: cs, rem)
      | none => none

def digitsToNat (ds : List Char) : Nat :=
  ds.foldl (fun acc c => acc * 10 + (c.toNat - '0'.toNat)) 0

def jsonNum (cs : List Char) : Option (Json × List Char) :=
  let p := match cs with
    | '-' :: t => (true, t)
    | _ => (false, cs)
  let ds := p.2.takeWhile isDigitCh
  let rest := p.2.dropWhile isDigitCh
  if ds.isEmpty then none
  else if 1 < ds.length && ds.headD '0' == '0' then none
  else
    match rest with
    | '.' :: _ => none
    | 'e' :: _ => none
    | 'E' :: _ => none
    | _ =>
      let n : Int := Int.ofNat (digitsToNat ds)
      some (.num (if p.1 then -n else n), rest)

mutual

def jsonVal : Nat → List Char → Option (Json × List Char)
  | 0, _ => none
  | fuel + 1, cs =>
    match skipWs cs with
    | [] => none
    | c :: rest =>
      if c == '"' then
        match jsonStringBody (rest.length + 1) rest with
        | some (body, rem) => some (.str ⟨body⟩, rem)
        | none => none
      else if c == '[' then
        match skipWs rest with
        | ']' :: rem => some (.arr [], rem)
        | _ =>
          match jsonElems fuel rest with
          | some (es, rem) => some (.arr es, rem)
          | none => none
      else if c == '\x7b' then
        match skipWs rest with
        | '\x7d' :: rem => some (.obj [], rem)
        | _ =>
          match jsonMembers fuel rest with
          | some (fs, rem) =>
            some (.obj (fs.foldl (fun d kv => dinsert d kv.1 kv.2) []), rem)
          | none => none
      else if c == 't' then
        match rest with
        | 'r' :: 'u' :: 'e' :: rem => some (.bool true, rem)
        | _ => none
      else if c == 'f' then
        match rest with
        | 'a' :: 'l' :: 's' :: 'e' :: rem => some (.bool false, rem)
        | _ => none
      else if c == 'n' then
        match rest with
        | 'u' :: 'l' :: 'l' :: rem => some (.null, rem)
        | _ => none
      else jsonNum (c :: rest)

def jsonElems : Nat → List Char → Option (List Json × List Char)
  | 0, _ => none
  | fuel + 1, cs =>
    match jsonVal fuel cs with
    | some (j, rem) =>
      match skipWs rem with
      | ',' :: rem2 =>
        match jsonElems fuel rem2 with
        | some (es, rem3) => some (j :: es, rem3)
        | none => none
      | ']' :: rem2 => some ([j], rem2)
      | _ => none
    | none => none

def jsonMembers : Nat → List Char → Option (List (String × Json) × List Char)
  | 0, _ => none
  | fuel + 1, cs =>
    match skipWs cs with
    | '"' :: rest =>
      match jsonStringBody (rest.length + 1) rest with
      | some (kcs, rem) =>
        match skipWs rem with
        | ':' :: rem2 =>
          match jsonVal fuel rem2 with
          | some (v, rem3) =>
            match skipWs rem3 with
            | ',' :: rem4 =>
              match jsonMembers fuel rem4 with
              | some (fs, rem5) => some (((⟨kcs⟩ : String), v) :: fs, rem5)
              | none => none
            | '\x7d' :: rem4 => some ([((⟨kcs⟩ : String), v)], rem4)
            | _ => none
          | none => none
        | _ => none
      | none => none
    | _ => none

end

/-- Model of `json.loads` returning `none` for a raised `JSONDecodeError`. -/
def json_parse (s : String) : Option Json :=
  match jsonVal (s.data.length + 2) s.data with
  | some (j, rem) => if (skipWs rem).isEmpty then some j else none
  | none => none

/-- The `try json.loads(...) except: obj = {}` pattern of
`parse_collections_merged`. -/
def json_loads (s : String) : Json :=
  match json_parse s with
  | some j => j
  | none => .obj []

/-! ## Inventory extraction (`ee_inventory_to_xml.py`) -/

structure Rpm where
  name : String
  epoch : String
  version : String
  release : String
  arch : String
deriving DecidableEq

structure SimplePkg where
  name : String
  version : String
deriving DecidableEq

/-- Embedding of `parse_rpm_lines`: keeps only stripped non-empty lines that
contain a pipe and split into exactly 5 pipe-delimited fields; each field is
stripped; an empty or literal `(none)` epoch becomes the empty string. -/
def parse_rpm_lines (text : String) : List Rpm :=
  (pySplitlines text).foldr
    (fun line0 acc =>
      let line := pyStrip line0
      if line = "" || !(pyContainsChar line '|') then acc
      else
        let parts := pySplit line "|"
        if parts.length ≠ 5 then acc
        else
          let p := parts.map pyStrip
          let epoch0 := p.getD 1 ""
          let epoch := if epoch0 ≠ "" ∧ epoch0 ≠ "(none)" then epoch0 else ""
          ⟨p.getD 0 "", epoch, p.getD 2 "", p.getD 3 "", p.getD 4 ""⟩ :: acc)
    []

/-- The `obj = obj["collections"]` unwrapping step of `_colls_from_obj`:
applied only when `obj` is a dict whose `collections` entry is itself a dict. -/
def colls_source_obj (obj : Json) : Json :=
  match obj with
  | .obj fields =>
    match dlookup fields "collections" with
    | some (Json.obj inner) => Json.obj inner
    | _ => Json.obj fields
  | _ => obj

/-- The dict branch of `_colls_from_obj`: keep entries whose value is a dict
containing `version` and whose key contains a dot. -/
def collsFromDictFields (fields : List (String × Json)) : List (String × String) :=
  fields.foldl
    (fun m kv =>
      match kv.2 with
      | .obj vf =>
        match dlookup vf "version" with
        | some ver => if pyContainsChar kv.1 '.' then dinsert m kv.1 (pyStr ver) else m
        | none => m
      | _ => m)
    []

/-- The list branch of `_colls_from_obj`: keep dict elements carrying
`namespace`, `name` and `version`, keyed by `namespace.name`. -/
def collsFromListElems (elems : List Json) : List (String × String) :=
  elems.foldl
    (fun m e =>
      match e with
      | .obj ef =>
        match dlookup ef "namespace", dlookup ef "name", dlookup ef "version" with
        | some ns, some nm, some ver =>
          dinsert m (pyStr ns ++ "." ++ pyStr nm) (pyStr ver)
        | _, _, _ => m
      | _ => m)
    []

/-- Embedding of `_colls_from_obj`: normalizes the three accepted JSON shapes
into a `{fully.qualified.name: version}` mapping; anything else normalizes to
the empty mapping.  (The Python body cannot raise on dict/list inputs, so the
surrounding `try` never matters.) -/
def _colls_from_obj (obj : Json) : List (String × String) :=
  match colls_source_obj obj with
  | .obj fields => collsFromDictFields fields
  | .arr elems => collsFromListElems elems
  | _ => []

/-- Chunking step of `parse_collections_merged`: split on the separator
marker, strip each chunk, clip to at most 3 chunks. -/
def coll_chunks (text : String) : List String :=
  let chunks := (pySplit text "===COLL SEP===").map pyStrip
  if chunks.length > 3 then chunks.take 3 else chunks

/-- The three source maps `[galaxy, filesystem, rpm-derived]` of
`parse_collections_merged`, padded with empty maps to exactly three entries.
An empty chunk is parsed as `"{}"` (the `ch or "{}"` idiom); `jparse` is the
`try json.loads except: {}` step, `json_loads` being the concrete instance.
(After padding the list always has length 3, so the `elif` branches of the
Python code are dead and `galaxy, fs, rpm = maps[0], maps[1], maps[2]`.) -/
def coll_maps (jparse : String → Json) (text : String) : List (List (String × String)) :=
  let maps := (coll_chunks text).map
    (fun ch => _colls_from_obj (jparse (if ch = "" then "\x7b\x7d" else ch)))
  maps ++ List.replicate (3 - maps.length) []

/-- The merged dict of `parse_collections_merged`: sources applied in
ascending precedence (rpm-derived, filesystem, galaxy), later sources
overwriting earlier entries for the same key. -/
def merged_map (jparse : String → Json) (text : String) : List (String × String) :=
  let maps := coll_maps jparse text
  [maps.getD 2 [], maps.getD 1 [], maps.getD 0 []].foldl
    (fun merged source => source.foldl (fun m nv => dinsert m nv.1 nv.2) merged)
    []

/-! ### Python `sorted` (stable sort)

`sorted` / `list.sort` is a stable sort by a key; as a function of the input
it is uniquely determined by the (total, transitive) `le` relation, so the
insertion sort below is extensionally the same function Python computes. -/

def insertLe {α : Type} (le : α → α → Bool) (x : α) : List α → List α
  | [] => [x]
  | y :: ys => if le x y && !(le y x) then x :: y :: ys else y :: insertLe le x ys

def pySorted {α : Type} (le : α → α → Bool) (l : List α) : List α :=
  l.foldl (fun acc x => insertLe le x acc) []

/-- Strict lexicographic order on character lists: Python string `<`
(code-point comparison). -/
def ltCL : List Char → List Char → Bool
  | [], [] => false
  | [], _ :: _ => true
  | _ :: _, [] => false
  | a :: as, b :: bs => if a < b then true else if b < a then false else ltCL as bs

def pyStrLt (a b : String) : Bool := ltCL a.data b.data

/-- Strict lexicographic order on string tuples (Python tuple comparison,
with the tuple written as a list). -/
def ltStrs : List String → List String → Bool
  | [], [] => false
  | [], _ :: _ => true
  | _ :: _, [] => false
  | a :: as, b :: bs => if pyStrLt a b then true else if pyStrLt b a then false else ltStrs as bs

/-- Sort key of `make_xml` for rpms: the tuple `(name, arch, version, release)`. -/
def rpm_sort_key (r : Rpm) : List String := [r.name, r.arch, r.version, r.release]

def rpmSortLe (a b : Rpm) : Bool := !(ltStrs (rpm_sort_key b) (rpm_sort_key a))

/-- Sort key of `make_xml` and `parse_collections_merged` for simple
packages: the case-folded name. -/
def pkg_lower_key (p : SimplePkg) : String := pyLower p.name

def pkgLowerLe (a b : SimplePkg) : Bool :=
  !(pyStrLt (pkg_lower_key b) (pkg_lower_key a))

/-- Embedding of `parse_collections_merged`: merged mapping turned into
records and sorted case-insensitively by name. -/
def parse_collections_merged (jparse : String → Json) (text : String) : List SimplePkg :=
  let items := (merged_map jparse text).map (fun nv => SimplePkg.mk nv.1 nv.2)
  pySorted pkgLowerLe items

/-! ### Document builder (`make_xml`) -/

/-- The structured inventory document assembled by `make_xml` (the XML
element tree, with the attribute/children structure flattened into fields;
an absent optional attribute is `none`). -/
structure InventoryDoc where
  reference : String
  created : Option String
  digest : Option String
  repoDigests : List Json
  repoTags : List Json
  rpms : List Rpm
  python : List SimplePkg
  collections : List SimplePkg

/-- Python `a or b` over optional JSON values (used for the
`meta.get("Created") or meta.get("created")` idiom). -/
def pyOr (a b : Option Json) : Option Json :=
  match a with
  | some j => if pyTruthy j then some j else b
  | none => b

/-- Python iteration over a JSON-shaped value (lists yield elements, dicts
yield keys, strings yield characters; other values are not iterable and
yield nothing in this model — `make_xml` only ever receives lists here). -/
def jsonIter (j : Json) : List Json :=
  match j with
  | .arr es => es
  | .obj fs => fs.map (fun kv => Json.str kv.1)
  | .str s => s.data.map (fun c => Json.str (⟨[c]⟩ : String))
  | _ => []

/-- Embedding of `make_xml`: reads metadata defensively (either
capitalization, attribute omitted when falsy) and stores the three package
lists sorted deterministically. -/
def make_xml (image_ref : String) (meta : List (String × Json))
    (rpms : List Rpm) (pips : List SimplePkg) (cols : List SimplePkg) : InventoryDoc :=
  let createdJ := pyOr (dlookup meta "Created") (dlookup meta "created")
  let digestJ := pyOr (dlookup meta "Digest") (dlookup meta "digest")
  let repo_digests := match pyOr (dlookup meta "RepoDigests") none with
    | some j => jsonIter j
    | none => []
  let repo_tags := match pyOr (dlookup meta "RepoTags") none with
    | some j => jsonIter j
    | none => []
  { reference := image_ref
    created := match createdJ with
      | some j => if pyTruthy j then some (pyStr j) else none
      | none => none
    digest := match digestJ with
      | some j => if pyTruthy j then some (pyStr j) else none
      | none => none
    repoDigests := repo_digests
    repoTags := repo_tags
    rpms := pySorted rpmSortLe rpms
    python := pySorted pkgLowerLe pips
    collections := pySorted pkgLowerLe cols }

/-! ## Document loader (`parse_image_xml` of `ee_xml_diff_report.py`) -/

/-- A persisted inventory document as seen by the loader: the root
attributes `reference` and `created` (empty string when absent, matching
`attrib.get(..., "")`), the raw text of the `repoTags/tag` children
(`t.text or ""`), the file path as a string, and the three record lists read
off the child elements. -/
structure XmlDoc where
  reference : String
  created : String
  repoTags : List String
  pathStr : String
  rpms : List Rpm
  pips : List SimplePkg
  cols : List SimplePkg

/-- Python `ref.rsplit("/", 1)[-1]`: the text after the last slash. -/
def lastSegment (s : String) : String := (pySplit s "/").getLastD s

/-- Tag rule 1 of `parse_image_xml`: if the last `/`-segment of the reference
contains a colon, take `segment.split(":")[1]` — the field between the first
and the second colon. -/
def tagFromRef (ref : String) : String :=
  let seg := lastSegment ref
  if pyContainsChar seg ':' then (pySplit seg ":").getD 1 "" else ""

/-- Tag rule 2 of `parse_image_xml`: the first stripped repoTag entry that
contains a colon contributes its text after the last colon (the loop breaks
at that entry even when the suffix is empty). -/
def tagFromRepoTags (tags : List String) : String :=
  match (tags.map pyStrip).find? (fun t => pyContainsChar t ':') with
  | some txt => (pySplit txt ":").getLastD ""
  | none => ""

/-- Search for the regex `__([^./]+)\.xml$` with the trailing `.xml` already
removed from the input: the leftmost `__` whose entire remainder is non-empty
and free of `.` and `/` yields that remainder as the captured group (regex
search advances one position at a time, which the recursion mirrors; the
anchor `$` forces the group to extend to the end). -/
def tagGroupSearch : Nat → List Char → Option (List Char)
  | 0, _ => none
  | _, [] => none
  | fuel + 1, c1 :: rest =>
    match rest with
    | c2 :: rest2 =>
      if c1 == '_' && c2 == '_' && !rest2.isEmpty &&
          rest2.all (fun c => c != '.' && c != '/') then
        some rest2
      else tagGroupSearch fuel rest
    | [] => none

def endsWithCL (sfx cs : List Char) : Bool := isPrefixCL sfx.reverse cs.reverse

/-- Tag rule 3 of `parse_image_xml`: `re.search(r"__([^./]+)\.xml$", str(path))`,
returning the captured group. -/
def tagFromFilename (pathStr : String) : Option String :=
  if endsWithCL ".xml".data pathStr.data then
    let core := pathStr.data.take (pathStr.data.length - 4)
    (tagGroupSearch (core.length + 1) core).map (fun g => (⟨g⟩ : String))
  else none

/-- Model of `pathlib.PurePath.name`: the last non-empty `/`-segment (pathlib
ignores trailing and doubled slashes; its dropping of `.` components is not
modeled — the report paths never contain them). -/
def pyName (pathStr : String) : String :=
  ((pySplit pathStr "/").filter (fun seg => seg ≠ "")).getLastD ""

/-- Model of `pathlib.PurePath.stem`: the final path component without its
last extension (an extension needs a dot that is neither the first nor the
last character of the name). -/
def pyStem (pathStr : String) : String :=
  let nm := (pyName pathStr).data
  match nm.reverse.findIdx? (fun c => c == '.') with
  | some j =>
    let i := nm.length - 1 - j
    if 0 < i ∧ i < nm.length - 1 then ⟨nm.take i⟩ else ⟨nm⟩
  | none => ⟨nm⟩

/-- The tag derivation chain of `parse_image_xml` (`tag = None` is modeled as
the empty string, which is exactly Python falsiness for the string results of
every rule). -/
def derived_tag (d : XmlDoc) : String :=
  let t1 := tagFromRef d.reference
  let t2 := if t1 ≠ "" then t1 else tagFromRepoTags d.repoTags
  let t3 := if t2 ≠ "" then t2 else
    match tagFromFilename d.pathStr with
    | some g => g
    | none => ""
  if t3 ≠ "" then t3 else pyStem d.pathStr

/-- The sentinel `datetime.min`: timestamps are modeled as `Nat` through an
order embedding of naive datetimes, with the least value `datetime.min`
mapped to `0`. -/
def datetime_min : Nat := 0

/-- The `created.split("Z")[0].split(".")[0]` trimming of `parse_image_xml`. -/
def strip_created (s : String) : String :=
  (pySplit ((pySplit s "Z").getD 0 "") ".").getD 0 ""

/-- The `created` derivation of `parse_image_xml`: an empty attribute or a
parse failure (the `except` arm, `fromiso` returning `none`) yields the
sentinel; `fromiso` stands for `datetime.fromisoformat`. -/
def snapshot_created (fromiso : String → Option Nat) (created : String) : Nat :=
  if created ≠ "" then
    match fromiso (strip_created created) with
    | some t => t
    | none => datetime_min
  else datetime_min

/-- A loaded snapshot: the document records plus the derived tag and
ordering timestamp. -/
structure Snapshot where
  tag : String
  created : Nat
  rpms : List Rpm
  pips : List SimplePkg
  cols : List SimplePkg

/-- Embedding of `parse_image_xml` (the XML reading itself is the identity on
the `XmlDoc` model; the derived fields are computed as in the source). -/
def parse_image_xml (fromiso : String → Option Nat) (d : XmlDoc) : Snapshot :=
  { tag := derived_tag d
    created := snapshot_created fromiso d.created
    rpms := d.rpms
    pips := d.pips
    cols := d.cols }

/-! ## Differ -/

def rpm_key_name_arch (r : Rpm) : String × String := (r.name, r.arch)

def rpm_version_str (r : Rpm) : String :=
  let evr := r.version ++ "-" ++ r.release
  if r.epoch ≠ "" then r.epoch ++ ":" ++ evr else evr

structure DiffOut where
  added : List String
  removed : List String
  upgraded : List String
  downgraded : List String
deriving DecidableEq

/-- One step of the first loop of `diff_rpms`/`diff_simple_pkgs` (iterating
the `new` dict): a key absent from `old` is added; a key present in both with
differing effective versions is upgraded when `old < new` (string
comparison), otherwise downgraded; equal versions contribute nothing.
(The source tests `o != n` first; this match tests equality first, which is
the same case split.) -/
def diffStep1 {ι κ : Type} [DecidableEq κ] (old : List (κ × ι)) (vstr : ι → String)
    (fa : ι → String) (fu fd : ι → String → String → String)
    (acc : DiffOut) (kv : κ × ι) : DiffOut :=
  match dlookup old kv.1 with
  | none => { acc with added := acc.added ++ [fa kv.2] }
  | some ov =>
    if vstr ov = vstr kv.2 then acc
    else if pyStrLt (vstr ov) (vstr kv.2) then
      { acc with upgraded := acc.upgraded ++ [fu kv.2 (vstr ov) (vstr kv.2)] }
    else
      { acc with downgraded := acc.downgraded ++ [fd kv.2 (vstr ov) (vstr kv.2)] }

/-- One step of the second loop (iterating the `old` dict): a key absent from
`new` is removed. -/
def diffStep2 {ι κ : Type} [DecidableEq κ] (new : List (κ × ι)) (fr : ι → String)
    (acc : DiffOut) (kv : κ × ι) : DiffOut :=
  if (dlookup new kv.1).isNone then { acc with removed := acc.removed ++ [fr kv.2] }
  else acc

/-- The common shape of `diff_rpms` and `diff_simple_pkgs`: index both lists
by the identity key, then classify. -/
def diff_generic {ι κ : Type} [DecidableEq κ] (key : ι → κ) (vstr : ι → String)
    (fa fr : ι → String) (fu fd : ι → String → String → String)
    (old_list new_list : List ι) : DiffOut :=
  let old := index_by old_list key
  let new := index_by new_list key
  old.foldl (diffStep2 new fr)
    (new.foldl (diffStep1 old vstr fa fu fd) ⟨[], [], [], []⟩)

def rpmFmtAdd (r : Rpm) : String :=
  "+ " ++ r.name ++ "[" ++ r.arch ++ "] " ++ rpm_version_str r

def rpmFmtRem (r : Rpm) : String :=
  "− " ++ r.name ++ "[" ++ r.arch ++ "] " ++ rpm_version_str r

def rpmFmtUp (r : Rpm) (o n : String) : String :=
  "↑ " ++ r.name ++ "[" ++ r.arch ++ "] " ++ o ++ " → " ++ n

def rpmFmtDown (r : Rpm) (o n : String) : String :=
  "↓ " ++ r.name ++ "[" ++ r.arch ++ "] " ++ o ++ " → " ++ n

/-- Embedding of `diff_rpms`. -/
def diff_rpms (old_list new_list : List Rpm) : DiffOut :=
  diff_generic rpm_key_name_arch rpm_version_str
    rpmFmtAdd rpmFmtRem rpmFmtUp rpmFmtDown old_list new_list

/-- Identity key of simple packages: the case-folded name. -/
def pkg_key (p : SimplePkg) : String := pyLower p.name

def pkgFmtAdd (p : SimplePkg) : String := "+ " ++ p.name ++ " " ++ p.version

def pkgFmtRem (p : SimplePkg) : String := "− " ++ p.name ++ " " ++ p.version

def pkgFmtUp (p : SimplePkg) (o n : String) : String :=
  "↑ " ++ p.name ++ " " ++ o ++ " → " ++ n

def pkgFmtDown (p : SimplePkg) (o n : String) : String :=
  "↓ " ++ p.name ++ " " ++ o ++ " → " ++ n

/-- Embedding of `diff_simple_pkgs` (default `name`/`version` keys). -/
def diff_simple_pkgs (old_list new_list : List SimplePkg) : DiffOut :=
  diff_generic pkg_key (fun p => p.version)
    pkgFmtAdd pkgFmtRem pkgFmtUp pkgFmtDown old_list new_list

/-! ## Report renderer -/

/-- Character-level model of `html.escape` with its default `quote=True`. -/
def escapeChar (c : Char) : List Char :=
  if c == '&' then ['&', 'a', 'm', 'p', ';']
  else if c == '<' then ['&', 'l', 't', ';']
  else if c == '>' then ['&', 'g', 't', ';']
  else if c == '"' then ['&', 'q', 'u', 'o', 't', ';']
  else if c == '\'' then ['&', '#', 'x', '2', '7', ';']
  else [c]

def escapeCL : List Char → List Char
  | [] => []
  | c :: cs => escapeChar c ++ escapeCL cs

/-- Model of `html.escape` (the sequential `str.replace` chain of the
library function is equivalent to this character-wise map, since the
replacement entities are never rescanned). -/
def escape (s : String) : String := ⟨escapeCL s.data⟩

def li_item (s : String) : String := "<li>" ++ escape s ++ "</li>"

/-- The `to_list` helper of `cell_html`. -/
def to_list (title : String) (entries : List String) : String :=
  if entries.isEmpty then ""
  else "<h5>" ++ title ++ "</h5><ul>" ++ String.join (entries.map li_item) ++ "</ul>"

def diff_total (d : DiffOut) : Nat :=
  d.added.length + d.removed.length + d.upgraded.length + d.downgraded.length

def counts_line (d : DiffOut) : String :=
  "<div class=\x27counts\x27>+" ++ toString d.added.length ++ " / ↑" ++
    toString d.upgraded.length ++ " / ↓" ++ toString d.downgraded.length ++
    " / −" ++ toString d.removed.length ++ "</div>"

/-- Embedding of `cell_html` (the call sites always use the default
`show_limit=30`, kept here as an explicit argument). -/
def cell_html (d : DiffOut) (show_limit : Nat) : String :=
  if diff_total d = 0 then "<div class=\x27empty\x27>No changes</div>"
  else
    let sample := d.added.take (show_limit / 2) ++ d.upgraded.take (show_limit / 2)
    let sampleHtml := if sample.isEmpty then ""
      else "<ul>" ++ String.join (sample.map li_item) ++ "</ul>"
    let remaining := diff_total d - sample.length
    let detailsHtml := if remaining > 0 then
      "<details><summary>Show all (" ++ toString (diff_total d) ++ ")</summary>" ++
        to_list "Added" d.added ++ to_list "Upgraded" d.upgraded ++
        to_list "Downgraded" d.downgraded ++ to_list "Removed" d.removed ++
        "</details>"
      else ""
    counts_line d ++ sampleHtml ++ detailsHtml

/-- Strict lexicographic order on `(datetime, string)` pairs: Python tuple
comparison of the `(created, tag)` sort keys of `build_report`. -/
def pairLtNS (x y : Nat × String) : Bool :=
  x.1 < y.1 || (x.1 == y.1 && pyStrLt x.2 y.2)

def entry_sort_key (e : Snapshot) : Nat × String := (e.created, e.tag)

def entryLt (a b : Snapshot) : Bool :=
  pairLtNS (entry_sort_key a) (entry_sort_key b)

def entryLe (a b : Snapshot) : Bool := !(entryLt b a)

/-- The `sorted(entries, key=lambda e: (e["created"], e["tag"]))` step of
`build_report`. -/
def sortEntries (l : List Snapshot) : List Snapshot := pySorted entryLe l

def th_tag (t : String) : String := "<th class=\x27taghdr\x27>" ++ escape t ++ "</th>"

def td_cell (c : String) : String := "<td class=\x27datacell\x27>" ++ c ++ "</td>"

/-- The inline CSS block of `build_report`, verbatim. -/
def report_css : String :=
  "\n    <style>\n    :root \x7b --label-col-width: 200px; --col-min-width: 440px; \x7d\n" ++
  "    body \x7b font-family: -apple-system, BlinkMacSystemFont, Segoe UI, Roboto, Helvetica, Arial, sans-serif; padding: 16px; margin: 0; \x7d\n" ++
  "    .table-wrap \x7b width: 100%; overflow-x: auto; \x7d\n" ++
  "    table \x7b border-collapse: separate; border-spacing: 0; width: max-content; min-width: 100%; \x7d\n" ++
  "    th, td \x7b border: 1px solid #ddd; vertical-align: top; padding: 10px; word-break: break-word; overflow-wrap: anywhere; \x7d\n" ++
  "    thead th \x7b background: #fafafa; position: sticky; top: 0; z-index: 2; \x7d\n" ++
  "    .rowlbl-hdr, .rowlbl \x7b width: var(--label-col-width); min-width: var(--label-col-width); max-width: var(--label-col-width); background: #fff; position: sticky; left: 0; z-index: 3; \x7d\n" ++
  "    .rowlbl \x7b font-weight: 700; \x7d\n" ++
  "    .taghdr, td.datacell \x7b min-width: var(--col-min-width); \x7d\n" ++
  "    td .counts \x7b font-weight: 600; margin-bottom: 6px; \x7d\n" ++
  "    td ul \x7b margin: 4px 0 8px 16px; padding: 0; \x7d\n" ++
  "    td h5 \x7b margin: 6px 0 4px; font-size: 12px; color: #555; \x7d\n" ++
  "    details \x7b margin-top: 6px; \x7d\n" ++
  "    .empty \x7b color: #666; font-style: italic; \x7d\n" ++
  "    </style>\n    "

/-- Embedding of `build_report`: sort the snapshots by `(created, tag)`,
diff each chronologically adjacent pair for the three package classes
(`enumerate` with an empty cell for index 0 is the leading `""` plus the
cells of the consecutive pairs), and assemble the self-contained document. -/
def build_report (entries0 : List Snapshot) : String :=
  let entries := sortEntries entries0
  let tags := entries.map (fun e => e.tag)
  let pairs := entries.zip entries.tail
  let lead : List String := if entries.isEmpty then [] else [""]
  let rpm_cells := lead ++ pairs.map (fun pe => cell_html (diff_rpms pe.1.rpms pe.2.rpms) 30)
  let pip_cells := lead ++ pairs.map (fun pe => cell_html (diff_simple_pkgs pe.1.pips pe.2.pips) 30)
  let col_cells := lead ++ pairs.map (fun pe => cell_html (diff_simple_pkgs pe.1.cols pe.2.cols) 30)
  "<html><head><meta charset=\x27utf-8\x27>" ++ report_css ++ "</head><body>" ++
  "<h1>EE Image Package Diffs</h1>" ++
  "<p>Columns are widened for readability (min width ~440px). Scroll horizontally to view all tags and vertically for full details.</p>" ++
  "<div class=\x27table-wrap\x27>" ++
  "<table>" ++
  "<thead><tr><th class=\x27rowlbl-hdr\x27>Type</th>" ++ String.join (tags.map th_tag) ++
    "</tr></thead>" ++
  "<tbody>" ++
  "<tr><th class=\x27rowlbl\x27>RPMs</th>" ++ String.join (rpm_cells.map td_cell) ++ "</tr>" ++
  "<tr><th class=\x27rowlbl\x27>Python Packages</th>" ++ String.join (pip_cells.map td_cell) ++ "</tr>" ++
  "<tr><th class=\x27rowlbl\x27>Ansible Collections</th>" ++ String.join (col_cells.map td_cell) ++ "</tr>" ++
  "</tbody></table></div>" ++
  "</body></html>"

/-! ## Dictionary lemmas -/

theorem dlookup_dinsert {κ ν : Type} [DecidableEq κ] (d : List (κ × ν)) (k a : κ) (v : ν) :
    dlookup (dinsert d k v) a = if k = a then some v else dlookup d a := by
  induction d with
  | nil => by_cases h : k = a <;> simp [dinsert, dlookup, h]
  | cons kv rest ih =>
    obtain ⟨k0, v0⟩ := kv
    by_cases h0 : k0 = k
    · subst h0
      by_cases h1 : k0 = a <;> simp [dinsert, dlookup, h1]
    · by_cases h1 : k0 = a
      · subst h1
        have h2 : ¬ k = k0 := fun h => h0 h.symm
        simp [dinsert, dlookup, h0, h2]
      · simp [dinsert, dlookup, h0, h1, ih]

theorem dkeys_dinsert {κ ν : Type} [DecidableEq κ] (d : List (κ × ν)) (k : κ) (v : ν) :
    dkeys (dinsert d k v) = if k ∈ dkeys d then dkeys d else dkeys d ++ [k] := by
  induction d with
  | nil => simp [dinsert, dkeys]
  | cons kv rest ih =>
    obtain ⟨k0, v0⟩ := kv
    by_cases h0 : k0 = k
    · subst h0; simp [dinsert, dkeys]
    · have hne : ¬ k = k0 := fun h => h0 h.symm
      simp only [dkeys] at ih ⊢
      by_cases hk : k ∈ List.map Prod.fst rest <;>
        simp [dinsert, h0, hne, hk, ih, List.mem_cons]

theorem nodup_dkeys_dinsert {κ ν : Type} [DecidableEq κ] (d : List (κ × ν)) (k : κ) (v : ν)
    (h : (dkeys d).Nodup) : (dkeys (dinsert d k v)).Nodup := by
  rw [dkeys_dinsert]
  by_cases hk : k ∈ dkeys d
  · simpa [hk] using h
  · simp [hk, List.nodup_append, h]

/-- Any fold whose steps either keep the dictionary or perform a single
`dinsert` preserves distinctness of keys. -/
theorem nodup_dkeys_foldl {α κ ν : Type} [DecidableEq κ]
    (step : List (κ × ν) → α → List (κ × ν))
    (hstep : ∀ m a, step m a = m ∨ ∃ k v, step m a = dinsert m k v) :
    ∀ (l : List α) (d : List (κ × ν)), (dkeys d).Nodup → (dkeys (l.foldl step d)).Nodup := by
  intro l
  induction l with
  | nil => intro d hd; simpa using hd
  | cons a rest ih =>
    intro d hd
    rw [List.foldl_cons]
    rcases hstep d a with h | ⟨k, v, h⟩
    · rw [h]; exact ih d hd
    · rw [h]; exact ih _ (nodup_dkeys_dinsert d k v hd)

theorem nodup_dkeys_index_by {ι κ : Type} [DecidableEq κ] (items : List ι) (f : ι → κ) :
    (dkeys (index_by items f)).Nodup := by
  refine nodup_dkeys_foldl _ ?_ items [] (by simp [dkeys])
  intro m it
  exact Or.inr ⟨f it, it, rfl⟩

theorem dlookup_eq_none_iff {κ ν : Type} [DecidableEq κ] (d : List (κ × ν)) (a : κ) :
    dlookup d a = none ↔ a ∉ dkeys d := by
  induction d with
  | nil => simp [dlookup, dkeys]
  | cons kv rest ih =>
    obtain ⟨k0, v0⟩ := kv
    by_cases h : k0 = a
    · subst h; simp [dlookup, dkeys]
    · have hne : ¬ a = k0 := fun hh => h hh.symm
      simp [dlookup, dkeys, h, hne, ih]

theorem dlookup_eq_some_iff_mem {κ ν : Type} [DecidableEq κ] (d : List (κ × ν))
    (h : (dkeys d).Nodup) (a : κ) (v : ν) :
    dlookup d a = some v ↔ (a, v) ∈ d := by
  induction d with
  | nil => simp [dlookup]
  | cons kv rest ih =>
    obtain ⟨k0, v0⟩ := kv
    rw [dkeys, List.map_cons, List.nodup_cons] at h
    by_cases heq : k0 = a
    · subst heq
      constructor
      · intro hv
        have hv2 : v0 = v := by simpa [dlookup] using hv
        subst hv2
        exact List.mem_cons_self _ _
      · intro hv
        rcases List.mem_cons.1 hv with h1 | h1
        · have hv2 : v = v0 := (Prod.ext_iff.1 h1).2
          simp [dlookup, hv2]
        · exact absurd (List.mem_map_of_mem Prod.fst h1) h.1
    · have hne : ¬ a = k0 := fun hh => heq hh.symm
      constructor
      · intro hv
        have hv2 : dlookup rest a = some v := by simpa [dlookup, heq] using hv
        exact List.mem_cons_of_mem _ ((ih h.2).1 hv2)
      · intro hv
        rcases List.mem_cons.1 hv with h1 | h1
        · exact absurd (Prod.ext_iff.1 h1).1 hne
        · simpa [dlookup, heq] using (ih h.2).2 h1

theorem dlookup_append {κ ν : Type} [DecidableEq κ] (d1 d2 : List (κ × ν)) (a : κ) :
    dlookup (d1 ++ d2) a = oFirst (dlookup d1 a) (dlookup d2 a) := by
  induction d1 with
  | nil => simp [dlookup, oFirst]
  | cons kv rest ih =>
    obtain ⟨k0, v0⟩ := kv
    by_cases h : k0 = a <;> simp [dlookup, h, ih, oFirst]

theorem dlookup_foldl_dinsert {κ ν : Type} [DecidableEq κ] (l d : List (κ × ν)) (a : κ) :
    dlookup (l.foldl (fun m nv => dinsert m nv.1 nv.2) d) a =
      oFirst (dlookup l.reverse a) (dlookup d a) := by
  induction l generalizing d with
  | nil => simp [dlookup, oFirst]
  | cons kv rest ih =>
    obtain ⟨k0, v0⟩ := kv
    rw [List.foldl_cons, ih, List.reverse_cons, dlookup_append, dlookup_dinsert]
    cases hr : dlookup rest.reverse a with
    | some w => simp [oFirst]
    | none =>
      by_cases h : k0 = a <;> simp [oFirst, dlookup, h]

theorem dlookup_reverse_of_nodup {κ ν : Type} [DecidableEq κ] (d : List (κ × ν))
    (h : (dkeys d).Nodup) (a : κ) : dlookup d.reverse a = dlookup d a := by
  have hrev : (dkeys d.reverse).Nodup := by
    rw [dkeys, List.map_reverse]
    exact List.nodup_reverse.2 h
  cases hd : dlookup d a with
  | some v =>
    exact (dlookup_eq_some_iff_mem d.reverse hrev a v).2
      (by simpa using (dlookup_eq_some_iff_mem d h a v).1 hd)
  | none =>
    refine (dlookup_eq_none_iff d.reverse a).2 ?_
    have := (dlookup_eq_none_iff d a).1 hd
    simpa [dkeys, List.map_reverse] using this

/-! ## Order lemmas for the comparison functions -/

theorem ltCL_irrefl (l : List Char) : ltCL l l = false := by
  induction l with
  | nil => rfl
  | cons c cs ih => simp [ltCL, lt_irrefl, ih]

theorem ltCL_asymm {a b : List Char} (h : ltCL a b = true) : ltCL b a = false := by
  induction a generalizing b with
  | nil =>
    cases b with
    | nil => simp [ltCL] at h
    | cons y ys => simp [ltCL]
  | cons x xs ih =>
    cases b with
    | nil => simp [ltCL] at h
    | cons y ys =>
      by_cases h1 : x < y
      · have h2 : ¬ y < x := lt_asymm h1
        simp [ltCL, h1, h2]
      · by_cases h2 : y < x
        · simp [ltCL, h1, h2] at h
        · simp only [ltCL, if_neg h1, if_neg h2] at h
          simp only [ltCL, if_neg h2, if_neg h1]
          exact ih h

theorem ltCL_trans {a b c : List Char} (h1 : ltCL a b = true) (h2 : ltCL b c = true) :
    ltCL a c = true := by
  induction a generalizing b c with
  | nil =>
    cases c with
    | nil =>
      cases b with
      | nil => simpa using h1
      | cons y ys => simp [ltCL] at h2
    | cons z zs => simp [ltCL]
  | cons x xs ih =>
    cases b with
    | nil => simp [ltCL] at h1
    | cons y ys =>
      cases c with
      | nil => simp [ltCL] at h2
      | cons z zs =>
        by_cases hxy : x < y
        · by_cases hyz : y < z
          · simp [ltCL, lt_trans hxy hyz]
          · by_cases hzy : z < y
            · simp [ltCL, hyz, hzy] at h2
            · have : y = z := le_antisymm (not_lt.1 hzy) (not_lt.1 hyz)
              subst this
              simp [ltCL, hxy]
        · by_cases hyx : y < x
          · simp [ltCL, hxy, hyx] at h1
          · have : x = y := le_antisymm (not_lt.1 hyx) (not_lt.1 hxy)
            subst this
            simp only [ltCL, if_neg hxy, if_neg hyx] at h1
            by_cases hxz : x < z
            · simp [ltCL, hxz]
            · by_cases hzx : z < x
              · simp [ltCL, hxz, hzx] at h2
              · have : x = z := le_antisymm (not_lt.1 hzx) (not_lt.1 hxz)
                subst this
                simp only [ltCL, if_neg hxz, if_neg hzx] at h2 ⊢
                exact ih h1 h2

theorem ltCL_connex {a b : List Char} (h1 : ltCL a b = false) (h2 : ltCL b a = false) :
    a = b := by
  induction a generalizing b with
  | nil =>
    cases b with
    | nil => rfl
    | cons y ys => simp [ltCL] at h1
  | cons x xs ih =>
    cases b with
    | nil => simp [ltCL] at h2
    | cons y ys =>
      by_cases hxy : x < y
      · simp [ltCL, hxy] at h1
      · by_cases hyx : y < x
        · simp [ltCL, hyx] at h2
        · have hx : x = y := le_antisymm (not_lt.1 hyx) (not_lt.1 hxy)
          subst hx
          simp only [ltCL, if_neg hxy, if_neg hyx] at h1 h2
          rw [ih h1 h2]

theorem string_data_inj {a b : String} (h : a.data = b.data) : a = b := by
  cases a; cases b; exact congrArg String.mk h

theorem pyStrLt_irrefl (a : String) : pyStrLt a a = false := ltCL_irrefl a.data

theorem pyStrLt_asymm {a b : String} (h : pyStrLt a b = true) : pyStrLt b a = false :=
  ltCL_asymm h

theorem pyStrLt_trans {a b c : String} (h1 : pyStrLt a b = true) (h2 : pyStrLt b c = true) :
    pyStrLt a c = true := ltCL_trans h1 h2

theorem pyStrLt_connex {a b : String} (h1 : pyStrLt a b = false) (h2 : pyStrLt b a = false) :
    a = b := string_data_inj (ltCL_connex h1 h2)

theorem ltStrs_asymm {a b : List String} (h : ltStrs a b = true) : ltStrs b a = false := by
  induction a generalizing b with
  | nil =>
    cases b with
    | nil => simp [ltStrs] at h
    | cons y ys => simp [ltStrs]
  | cons x xs ih =>
    cases b with
    | nil => simp [ltStrs] at h
    | cons y ys =>
      by_cases h1 : pyStrLt x y = true
      · simp [ltStrs, h1, pyStrLt_asymm h1]
      · have h1f : pyStrLt x y = false := Bool.eq_false_iff.2 h1
        by_cases h2 : pyStrLt y x = true
        · simp [ltStrs, h1f, h2] at h
        · have h2f : pyStrLt y x = false := Bool.eq_false_iff.2 h2
          simp only [ltStrs, h1f, h2f] at h ⊢
          simpa using ih (by simpa using h)

theorem ltStrs_trans {a b c : List String} (h1 : ltStrs a b = true) (h2 : ltStrs b c = true) :
    ltStrs a c = true := by
  induction a generalizing b c with
  | nil =>
    cases c with
    | nil =>
      cases b with
      | nil => simpa using h1
      | cons y ys => simp [ltStrs] at h2
    | cons z zs => simp [ltStrs]
  | cons x xs ih =>
    cases b with
    | nil => simp [ltStrs] at h1
    | cons y ys =>
      cases c with
      | nil => simp [ltStrs] at h2
      | cons z zs =>
        by_cases hxy : pyStrLt x y = true
        · by_cases hyz : pyStrLt y z = true
          · simp [ltStrs, pyStrLt_trans hxy hyz]
          · have hyzf : pyStrLt y z = false := Bool.eq_false_iff.2 hyz
            by_cases hzy : pyStrLt z y = true
            · simp [ltStrs, hyzf, hzy] at h2
            · have : y = z := pyStrLt_connex hyzf (Bool.eq_false_iff.2 hzy)
              subst this
              simp [ltStrs, hxy]
        · have hxyf : pyStrLt x y = false := Bool.eq_false_iff.2 hxy
          by_cases hyx : pyStrLt y x = true
          · simp [ltStrs, hxyf, hyx] at h1
          · have : x = y := pyStrLt_connex hxyf (Bool.eq_false_iff.2 hyx)
            subst this
            simp only [ltStrs, hxyf, Bool.eq_false_iff.2 hyx] at h1
            by_cases hxz : pyStrLt x z = true
            · simp [ltStrs, hxz]
            · have hxzf : pyStrLt x z = false := Bool.eq_false_iff.2 hxz
              by_cases hzx : pyStrLt z x = true
              · simp [ltStrs, hxzf, hzx] at h2
              · have : x = z := pyStrLt_connex hxzf (Bool.eq_false_iff.2 hzx)
                subst this
                simp only [ltStrs, hxzf, Bool.eq_false_iff.2 hzx] at h2 ⊢
                exact ih (by simpa using h1) (by simpa using h2)

theorem ltStrs_connex {a b : List String} (h1 : ltStrs a b = false) (h2 : ltStrs b a = false) :
    a = b := by
  induction a generalizing b with
  | nil =>
    cases b with
    | nil => rfl
    | cons y ys => simp [ltStrs] at h1
  | cons x xs ih =>
    cases b with
    | nil => simp [ltStrs] at h2
    | cons y ys =>
      by_cases hxy : pyStrLt x y = true
      · simp [ltStrs, hxy] at h1
      · have hxyf : pyStrLt x y = false := Bool.eq_false_iff.2 hxy
        by_cases hyx : pyStrLt y x = true
        · simp [ltStrs, hyx, hxyf] at h2
        · have hyxf : pyStrLt y x = false := Bool.eq_false_iff.2 hyx
          have : x = y := pyStrLt_connex hxyf hyxf
          subst this
          simp only [ltStrs, hxyf] at h1 h2
          rw [ih h1 h2]

/-! ## Total-preorder facts for the sort comparators

Each comparator has the shape `le a b = !(lt (f b) (f a))` for a strict order
`lt` and a key projection `f`; totality and transitivity follow generically
from asymmetry, transitivity and connexity of `lt`. -/

theorem leOf_total {α σ : Type} (lt : σ → σ → Bool) (f : α → σ)
    (hasym : ∀ x y, lt x y = true → lt y x = false) (a b : α) :
    ((!(lt (f b) (f a))) || (!(lt (f a) (f b)))) = true := by
  cases hlt : lt (f b) (f a) with
  | false => simp
  | true => simp [hasym _ _ hlt]

theorem leOf_trans {α σ : Type} (lt : σ → σ → Bool) (f : α → σ)
    (htrans : ∀ x y z, lt x y = true → lt y z = true → lt x z = true)
    (hconn : ∀ x y, lt x y = false → lt y x = false → x = y)
    (a b c : α) (h1 : (!(lt (f b) (f a))) = true) (h2 : (!(lt (f c) (f b))) = true) :
    (!(lt (f c) (f a))) = true := by
  rw [Bool.not_eq_true'] at h1 h2 ⊢
  cases hca : lt (f c) (f a) with
  | false => rfl
  | true =>
    exfalso
    by_cases hab : lt (f a) (f b) = true
    · have := htrans _ _ _ hca hab
      rw [h2] at this
      exact Bool.noConfusion this
    · have hab2 : lt (f a) (f b) = false := Bool.eq_false_iff.2 hab
      have heq : f a = f b := hconn _ _ hab2 h1
      rw [← heq, hca] at h2
      exact Bool.noConfusion h2

/-- Strict lexicographic order on the `(created, tag)` pairs used by
`build_report` (Python tuple comparison of a datetime and a string). -/
theorem pairLtNS_asymm (x y : Nat × String) (h : pairLtNS x y = true) :
    pairLtNS y x = false := by
  obtain ⟨x1, x2⟩ := x
  obtain ⟨y1, y2⟩ := y
  simp only [pairLtNS, Bool.or_eq_true, Bool.and_eq_true, beq_iff_eq,
    decide_eq_true_eq] at h
  rcases h with h | ⟨h, hs⟩
  · simp only [pairLtNS, Bool.or_eq_false_iff, Bool.and_eq_false_iff]
    constructor
    · simp only [decide_eq_false_iff_not]
      omega
    · left
      simp only [beq_eq_false_iff_ne, ne_eq]
      omega
  · subst h
    simp [pairLtNS, pyStrLt_asymm hs]

theorem pairLtNS_trans (x y z : Nat × String) (h1 : pairLtNS x y = true)
    (h2 : pairLtNS y z = true) : pairLtNS x z = true := by
  obtain ⟨x1, x2⟩ := x
  obtain ⟨y1, y2⟩ := y
  obtain ⟨z1, z2⟩ := z
  simp only [pairLtNS, Bool.or_eq_true, Bool.and_eq_true, beq_iff_eq,
    decide_eq_true_eq] at h1 h2 ⊢
  rcases h1 with h1 | ⟨h1, hs1⟩ <;> rcases h2 with h2 | ⟨h2, hs2⟩
  · left; omega
  · left; omega
  · left; omega
  · right
    exact ⟨by omega, pyStrLt_trans hs1 hs2⟩

theorem pairLtNS_connex (x y : Nat × String) (h1 : pairLtNS x y = false)
    (h2 : pairLtNS y x = false) : x = y := by
  obtain ⟨x1, x2⟩ := x
  obtain ⟨y1, y2⟩ := y
  simp only [pairLtNS, Bool.or_eq_false_iff, Bool.and_eq_false_iff,
    decide_eq_false_iff_not, beq_eq_false_iff_ne, ne_eq] at h1 h2
  have hn : x1 = y1 := by omega
  subst hn
  rcases h1.2 with h | h
  · exact absurd rfl h
  · rcases h2.2 with h3 | h3
    · exact absurd rfl h3
    · rw [pyStrLt_connex h h3]

/-! ## Stable sort lemmas (`pySorted`) -/

theorem insertLe_perm {α : Type} (le : α → α → Bool) (x : α) (l : List α) :
    (insertLe le x l).Perm (x :: l) := by
  induction l with
  | nil => simp [insertLe]
  | cons y ys ih =>
    by_cases h : (le x y && !(le y x)) = true
    · rw [insertLe, if_pos h]
    · rw [insertLe, if_neg h]
      exact (ih.cons y).trans (List.Perm.swap x y ys)

theorem pySorted_perm_aux {α : Type} (le : α → α → Bool) (l acc : List α) :
    (l.foldl (fun a x => insertLe le x a) acc).Perm (acc ++ l) := by
  induction l generalizing acc with
  | nil => simp
  | cons x xs ih =>
    rw [List.foldl_cons]
    refine (ih _).trans ?_
    refine (((insertLe_perm le x acc).append_right xs).trans ?_)
    exact List.perm_middle.symm

theorem pySorted_perm {α : Type} (le : α → α → Bool) (l : List α) :
    (pySorted le l).Perm l := by
  simpa using pySorted_perm_aux le l []

theorem insertLe_pairwise {α : Type} (le : α → α → Bool)
    (htot : ∀ a b, (le a b || le b a) = true)
    (htrans : ∀ a b c, le a b = true → le b c = true → le a c = true)
    (x : α) (l : List α) (h : l.Pairwise (fun a b => le a b = true)) :
    (insertLe le x l).Pairwise (fun a b => le a b = true) := by
  induction l with
  | nil => simp [insertLe]
  | cons y ys ih =>
    rcases List.pairwise_cons.1 h with ⟨hy, hys⟩
    by_cases hc : (le x y && !(le y x)) = true
    · rw [insertLe, if_pos hc]
      rw [Bool.and_eq_true, Bool.not_eq_true'] at hc
      refine List.pairwise_cons.2 ⟨?_, h⟩
      intro z hz
      rcases List.mem_cons.1 hz with rfl | hz2
      · exact hc.1
      · exact htrans _ _ _ hc.1 (hy z hz2)
    · rw [insertLe, if_neg hc]
      refine List.pairwise_cons.2 ⟨?_, ih hys⟩
      intro z hz
      have hz3 := (insertLe_perm le x ys).mem_iff.1 hz
      rcases List.mem_cons.1 hz3 with rfl | hz4
      · by_cases hyx : le y z = true
        · exact hyx
        · have hxy : le z y = true := by
            have := htot z y
            rcases Bool.or_eq_true_iff.1 this with h1 | h1
            · exact h1
            · exact absurd h1 hyx
          exact absurd (by simp [hxy, Bool.eq_false_iff.2 hyx]) hc
      · exact hy z hz4

theorem pySorted_pairwise {α : Type} (le : α → α → Bool)
    (htot : ∀ a b, (le a b || le b a) = true)
    (htrans : ∀ a b c, le a b = true → le b c = true → le a c = true)
    (l : List α) : (pySorted le l).Pairwise (fun a b => le a b = true) := by
  have haux : ∀ (l2 acc : List α), acc.Pairwise (fun a b => le a b = true) →
      (l2.foldl (fun a x => insertLe le x a) acc).Pairwise (fun a b => le a b = true) := by
    intro l2
    induction l2 with
    | nil => intro acc hacc; simpa using hacc
    | cons x xs ih =>
      intro acc hacc
      rw [List.foldl_cons]
      exact ih _ (insertLe_pairwise le htot htrans x acc hacc)
  exact haux l [] (by simp)

/-! Totality and transitivity of the three concrete comparators. -/

theorem rpmSortLe_total (a b : Rpm) : (rpmSortLe a b || rpmSortLe b a) = true :=
  leOf_total ltStrs rpm_sort_key (fun _ _ h => ltStrs_asymm h) a b

theorem rpmSortLe_trans (a b c : Rpm) (h1 : rpmSortLe a b = true)
    (h2 : rpmSortLe b c = true) : rpmSortLe a c = true :=
  leOf_trans ltStrs rpm_sort_key (fun _ _ _ u v => ltStrs_trans u v)
    (fun _ _ u v => ltStrs_connex u v) a b c h1 h2

theorem pkgLowerLe_total (a b : SimplePkg) : (pkgLowerLe a b || pkgLowerLe b a) = true :=
  leOf_total pyStrLt pkg_lower_key (fun _ _ h => pyStrLt_asymm h) a b

theorem pkgLowerLe_trans (a b c : SimplePkg) (h1 : pkgLowerLe a b = true)
    (h2 : pkgLowerLe b c = true) : pkgLowerLe a c = true :=
  leOf_trans pyStrLt pkg_lower_key (fun _ _ _ u v => pyStrLt_trans u v)
    (fun _ _ u v => pyStrLt_connex u v) a b c h1 h2

theorem entryLe_total (a b : Snapshot) : (entryLe a b || entryLe b a) = true :=
  leOf_total pairLtNS entry_sort_key pairLtNS_asymm a b

theorem entryLe_trans (a b c : Snapshot) (h1 : entryLe a b = true)
    (h2 : entryLe b c = true) : entryLe a c = true :=
  leOf_trans pairLtNS entry_sort_key pairLtNS_trans pairLtNS_connex a b c h1 h2

/-! ## Diff classification analysis

The four classification predicates for an entry of the `new` dictionary
relative to the `old` dictionary, and the lists of entries each class
collects.  These characterise the output of `diff_generic` exactly. -/

def isAddedIn {ι κ : Type} [DecidableEq κ] (old : List (κ × ι)) (kv : κ × ι) : Bool :=
  (dlookup old kv.1).isNone

def upTriple {ι κ : Type} [DecidableEq κ] (old : List (κ × ι)) (vstr : ι → String)
    (kv : κ × ι) : Option (κ × ι × ι) :=
  match dlookup old kv.1 with
  | some ov =>
    if vstr ov = vstr kv.2 then none
    else if pyStrLt (vstr ov) (vstr kv.2) then some (kv.1, ov, kv.2) else none
  | none => none

def downTriple {ι κ : Type} [DecidableEq κ] (old : List (κ × ι)) (vstr : ι → String)
    (kv : κ × ι) : Option (κ × ι × ι) :=
  match dlookup old kv.1 with
  | some ov =>
    if vstr ov = vstr kv.2 then none
    else if pyStrLt (vstr ov) (vstr kv.2) then none else some (kv.1, ov, kv.2)
  | none => none

def isUnchangedIn {ι κ : Type} [DecidableEq κ] (old : List (κ × ι)) (vstr : ι → String)
    (kv : κ × ι) : Bool :=
  match dlookup old kv.1 with
  | some ov => vstr ov == vstr kv.2
  | none => false

/-- Entries of `new` whose identity key is absent from `old`.  Note that the
`removed` entries of `diff key A B` are exactly `addedPairs key B A`. -/
def addedPairs {ι κ : Type} [DecidableEq κ] (key : ι → κ) (old_list new_list : List ι) :
    List (κ × ι) :=
  (index_by new_list key).filter (isAddedIn (index_by old_list key))

def upgradedTriples {ι κ : Type} [DecidableEq κ] (key : ι → κ) (vstr : ι → String)
    (old_list new_list : List ι) : List (κ × ι × ι) :=
  (index_by new_list key).filterMap (upTriple (index_by old_list key) vstr)

def downgradedTriples {ι κ : Type} [DecidableEq κ] (key : ι → κ) (vstr : ι → String)
    (old_list new_list : List ι) : List (κ × ι × ι) :=
  (index_by new_list key).filterMap (downTriple (index_by old_list key) vstr)

def unchangedPairs {ι κ : Type} [DecidableEq κ] (key : ι → κ) (vstr : ι → String)
    (old_list new_list : List ι) : List (κ × ι) :=
  (index_by new_list key).filter (isUnchangedIn (index_by old_list key) vstr)

/-- The identity keys occurring in either snapshot (each exactly once). -/
def unionKeys {ι κ : Type} [DecidableEq κ] (dOld dNew : List (κ × ι)) : List κ :=
  dkeys dNew ++ (dkeys dOld).filter (fun k => !(decide (k ∈ dkeys dNew)))

theorem foldl_diffStep1 {ι κ : Type} [DecidableEq κ] (old : List (κ × ι))
    (vstr : ι → String) (fa : ι → String) (fu fd : ι → String → String → String)
    (l : List (κ × ι)) (acc : DiffOut) :
    l.foldl (diffStep1 old vstr fa fu fd) acc =
      ⟨acc.added ++ (l.filter (isAddedIn old)).map (fun kv => fa kv.2),
       acc.removed,
       acc.upgraded ++ (l.filterMap (upTriple old vstr)).map
         (fun t => fu t.2.2 (vstr t.2.1) (vstr t.2.2)),
       acc.downgraded ++ (l.filterMap (downTriple old vstr)).map
         (fun t => fd t.2.2 (vstr t.2.1) (vstr t.2.2))⟩ := by
  induction l generalizing acc with
  | nil => simp
  | cons kv rest ih =>
    rw [List.foldl_cons, ih]
    cases hov : dlookup old kv.1 with
    | none =>
      simp [diffStep1, hov, isAddedIn, upTriple, downTriple,
        List.filter_cons, List.filterMap_cons]
    | some ov =>
      by_cases he : vstr ov = vstr kv.2
      · simp [diffStep1, hov, he, isAddedIn, upTriple, downTriple,
          List.filter_cons, List.filterMap_cons]
      · by_cases hlt : pyStrLt (vstr ov) (vstr kv.2) = true
        · simp [diffStep1, hov, he, hlt, isAddedIn, upTriple, downTriple,
            List.filter_cons, List.filterMap_cons]
        · simp [diffStep1, hov, he, hlt, isAddedIn, upTriple, downTriple,
            List.filter_cons, List.filterMap_cons]

theorem foldl_diffStep2 {ι κ : Type} [DecidableEq κ] (new : List (κ × ι))
    (fr : ι → String) (l : List (κ × ι)) (acc : DiffOut) :
    l.foldl (diffStep2 new fr) acc =
      ⟨acc.added,
       acc.removed ++ (l.filter (isAddedIn new)).map (fun kv => fr kv.2),
       acc.upgraded, acc.downgraded⟩ := by
  induction l generalizing acc with
  | nil => simp
  | cons kv rest ih =>
    rw [List.foldl_cons, ih]
    by_cases h : (dlookup new kv.1).isNone = true
    · simp [diffStep2, h, isAddedIn, List.filter_cons]
    · simp [diffStep2, h, isAddedIn, List.filter_cons]

/-- The exact shape of the generic diff output. -/
theorem diff_generic_eq {ι κ : Type} [DecidableEq κ] (key : ι → κ) (vstr : ι → String)
    (fa fr : ι → String) (fu fd : ι → String → String → String) (A B : List ι) :
    diff_generic key vstr fa fr fu fd A B =
      ⟨(addedPairs key A B).map (fun kv => fa kv.2),
       (addedPairs key B A).map (fun kv => fr kv.2),
       (upgradedTriples key vstr A B).map (fun t => fu t.2.2 (vstr t.2.1) (vstr t.2.2)),
       (downgradedTriples key vstr A B).map (fun t => fd t.2.2 (vstr t.2.1) (vstr t.2.2))⟩ := by
  simp only [diff_generic]
  rw [foldl_diffStep1, foldl_diffStep2]
  simp [addedPairs, upgradedTriples, downgradedTriples]

/-- Every entry of the `new` dictionary falls into exactly one of the four
classes, so the class sizes partition the dictionary size. -/
theorem partition_length {ι κ : Type} [DecidableEq κ] (old : List (κ × ι))
    (vstr : ι → String) (l : List (κ × ι)) :
    (l.filter (isAddedIn old)).length + (l.filterMap (upTriple old vstr)).length +
      (l.filterMap (downTriple old vstr)).length +
      (l.filter (isUnchangedIn old vstr)).length = l.length := by
  induction l with
  | nil => simp
  | cons kv rest ih =>
    cases hov : dlookup old kv.1 with
    | none =>
      have hA : isAddedIn old kv = true := by simp [isAddedIn, hov]
      have hU : upTriple old vstr kv = none := by simp [upTriple, hov]
      have hD : downTriple old vstr kv = none := by simp [downTriple, hov]
      have hC : isUnchangedIn old vstr kv = false := by simp [isUnchangedIn, hov]
      simp only [List.filter_cons, List.filterMap_cons, hA, hU, hD, hC, if_true,
        Bool.false_eq_true, if_false, List.length_cons]
      omega
    | some ov =>
      by_cases he : vstr ov = vstr kv.2
      · have hA : isAddedIn old kv = false := by simp [isAddedIn, hov]
        have hU : upTriple old vstr kv = none := by simp [upTriple, hov, he]
        have hD : downTriple old vstr kv = none := by simp [downTriple, hov, he]
        have hC : isUnchangedIn old vstr kv = true := by simp [isUnchangedIn, hov, he]
        simp only [List.filter_cons, List.filterMap_cons, hA, hU, hD, hC, if_true,
          Bool.false_eq_true, if_false, List.length_cons]
        omega
      · by_cases hlt : pyStrLt (vstr ov) (vstr kv.2) = true
        · have hA : isAddedIn old kv = false := by simp [isAddedIn, hov]
          have hU : upTriple old vstr kv = some (kv.1, ov, kv.2) := by
            simp [upTriple, hov, he, hlt]
          have hD : downTriple old vstr kv = none := by simp [downTriple, hov, he, hlt]
          have hC : isUnchangedIn old vstr kv = false := by simp [isUnchangedIn, hov, he]
          simp only [List.filter_cons, List.filterMap_cons, hA, hU, hD, hC, if_true,
            Bool.false_eq_true, if_false, List.length_cons]
          omega
        · have hA : isAddedIn old kv = false := by simp [isAddedIn, hov]
          have hU : upTriple old vstr kv = none := by simp [upTriple, hov, he, hlt]
          have hD : downTriple old vstr kv = some (kv.1, ov, kv.2) := by
            simp [downTriple, hov, he, hlt]
          have hC : isUnchangedIn old vstr kv = false := by simp [isUnchangedIn, hov, he]
          simp only [List.filter_cons, List.filterMap_cons, hA, hU, hD, hC, if_true,
            Bool.false_eq_true, if_false, List.length_cons]
          omega

theorem filter_fst_length {κ ι : Type} (l : List (κ × ι)) (p : κ → Bool) :
    (l.filter (fun kv => p kv.1)).length = ((l.map Prod.fst).filter p).length := by
  induction l with
  | nil => rfl
  | cons kv rest ih =>
    by_cases h : p kv.1 = true <;> simp [List.filter_cons, h, ih]

theorem isAddedIn_eq_not_mem {ι κ : Type} [DecidableEq κ] (d : List (κ × ι)) (kv : κ × ι) :
    isAddedIn d kv = !(decide (kv.1 ∈ dkeys d)) := by
  by_cases hm : kv.1 ∈ dkeys d
  · have : dlookup d kv.1 ≠ none := fun hn => ((dlookup_eq_none_iff d kv.1).1 hn) hm
    cases h : dlookup d kv.1 with
    | none => exact absurd h this
    | some v => simp [isAddedIn, h, hm]
  · have : dlookup d kv.1 = none := (dlookup_eq_none_iff d kv.1).2 hm
    simp [isAddedIn, this, hm]

/-- The diff completeness count: added + removed + upgraded + downgraded +
unchanged = number of distinct identity keys in the union. -/
theorem diff_count_identity {ι κ : Type} [DecidableEq κ] (key : ι → κ)
    (vstr : ι → String) (A B : List ι) :
    (addedPairs key A B).length + (addedPairs key B A).length +
      (upgradedTriples key vstr A B).length + (downgradedTriples key vstr A B).length +
      (unchangedPairs key vstr A B).length =
      (unionKeys (index_by A key) (index_by B key)).length := by
  have h1 : (addedPairs key A B).length + (upgradedTriples key vstr A B).length +
      (downgradedTriples key vstr A B).length + (unchangedPairs key vstr A B).length =
      (index_by B key).length := partition_length (index_by A key) vstr (index_by B key)
  have h2 : (addedPairs key B A).length =
      ((dkeys (index_by A key)).filter
        (fun k => !(decide (k ∈ dkeys (index_by B key))))).length := by
    rw [addedPairs]
    rw [List.filter_congr (fun kv _ => isAddedIn_eq_not_mem (index_by B key) kv)]
    exact filter_fst_length (index_by A key)
      (fun k => !(decide (k ∈ dkeys (index_by B key))))
  have h3 : (dkeys (index_by B key)).length = (index_by B key).length :=
    List.length_map _ _
  rw [unionKeys, List.length_append]
  omega

theorem mem_addedPairs {ι κ : Type} [DecidableEq κ] (key : ι → κ) (A B : List ι)
    (k : κ) (r : ι) :
    (k, r) ∈ addedPairs key A B ↔
      dlookup (index_by B key) k = some r ∧ k ∉ dkeys (index_by A key) := by
  rw [addedPairs, List.mem_filter]
  constructor
  · rintro ⟨hm, hadd⟩
    refine ⟨(dlookup_eq_some_iff_mem _ (nodup_dkeys_index_by B key) _ _).2 hm, ?_⟩
    rw [isAddedIn_eq_not_mem] at hadd
    simpa using hadd
  · rintro ⟨hl, hk⟩
    refine ⟨(dlookup_eq_some_iff_mem _ (nodup_dkeys_index_by B key) _ _).1 hl, ?_⟩
    rw [isAddedIn_eq_not_mem]
    simpa using hk

theorem mem_upgradedTriples {ι κ : Type} [DecidableEq κ] (key : ι → κ)
    (vstr : ι → String) (A B : List ι) (k : κ) (ov nv : ι) :
    (k, ov, nv) ∈ upgradedTriples key vstr A B ↔
      dlookup (index_by A key) k = some ov ∧ dlookup (index_by B key) k = some nv ∧
      vstr ov ≠ vstr nv ∧ pyStrLt (vstr ov) (vstr nv) = true := by
  rw [upgradedTriples, List.mem_filterMap]
  constructor
  · rintro ⟨kv, hmem, hup⟩
    cases hov : dlookup (index_by A key) kv.1 with
    | none =>
      have hz : upTriple (index_by A key) vstr kv = none := by simp [upTriple, hov]
      rw [hz] at hup; exact absurd hup (by simp)
    | some ov0 =>
      by_cases he : vstr ov0 = vstr kv.2
      · have hz : upTriple (index_by A key) vstr kv = none := by simp [upTriple, hov, he]
        rw [hz] at hup; exact absurd hup (by simp)
      · by_cases hlt : pyStrLt (vstr ov0) (vstr kv.2) = true
        · have hz : upTriple (index_by A key) vstr kv = some (kv.1, ov0, kv.2) := by
            simp [upTriple, hov, he, hlt]
          rw [hz] at hup
          have h1 : kv.1 = k := (Prod.ext_iff.1 (Option.some_injective _ hup)).1
          have h2 : ov0 = ov :=
            (Prod.ext_iff.1 (Prod.ext_iff.1 (Option.some_injective _ hup)).2).1
          have h3 : kv.2 = nv :=
            (Prod.ext_iff.1 (Prod.ext_iff.1 (Option.some_injective _ hup)).2).2
          subst h1; subst h2; subst h3
          refine ⟨hov, ?_, he, hlt⟩
          exact (dlookup_eq_some_iff_mem _ (nodup_dkeys_index_by B key) _ _).2
            (by simpa using hmem)
        · have hz : upTriple (index_by A key) vstr kv = none := by
            simp [upTriple, hov, he, hlt]
          rw [hz] at hup; exact absurd hup (by simp)
  · rintro ⟨hA, hB, hne, hlt⟩
    refine ⟨(k, nv), (dlookup_eq_some_iff_mem _ (nodup_dkeys_index_by B key) _ _).1 hB, ?_⟩
    simp [upTriple, hA, hne, hlt]

theorem mem_downgradedTriples {ι κ : Type} [DecidableEq κ] (key : ι → κ)
    (vstr : ι → String) (A B : List ι) (k : κ) (ov nv : ι) :
    (k, ov, nv) ∈ downgradedTriples key vstr A B ↔
      dlookup (index_by A key) k = some ov ∧ dlookup (index_by B key) k = some nv ∧
      vstr ov ≠ vstr nv ∧ pyStrLt (vstr ov) (vstr nv) = false := by
  rw [downgradedTriples, List.mem_filterMap]
  constructor
  · rintro ⟨kv, hmem, hdn⟩
    cases hov : dlookup (index_by A key) kv.1 with
    | none =>
      have hz : downTriple (index_by A key) vstr kv = none := by simp [downTriple, hov]
      rw [hz] at hdn; exact absurd hdn (by simp)
    | some ov0 =>
      by_cases he : vstr ov0 = vstr kv.2
      · have hz : downTriple (index_by A key) vstr kv = none := by
          simp [downTriple, hov, he]
        rw [hz] at hdn; exact absurd hdn (by simp)
      · by_cases hlt : pyStrLt (vstr ov0) (vstr kv.2) = true
        · have hz : downTriple (index_by A key) vstr kv = none := by
            simp [downTriple, hov, he, hlt]
          rw [hz] at hdn; exact absurd hdn (by simp)
        · have hz : downTriple (index_by A key) vstr kv = some (kv.1, ov0, kv.2) := by
            simp [downTriple, hov, he, hlt]
          rw [hz] at hdn
          have h1 : kv.1 = k := (Prod.ext_iff.1 (Option.some_injective _ hdn)).1
          have h2 : ov0 = ov :=
            (Prod.ext_iff.1 (Prod.ext_iff.1 (Option.some_injective _ hdn)).2).1
          have h3 : kv.2 = nv :=
            (Prod.ext_iff.1 (Prod.ext_iff.1 (Option.some_injective _ hdn)).2).2
          subst h1; subst h2; subst h3
          refine ⟨hov, ?_, he, Bool.eq_false_iff.2 hlt⟩
          exact (dlookup_eq_some_iff_mem _ (nodup_dkeys_index_by B key) _ _).2
            (by simpa using hmem)
  · rintro ⟨hA, hB, hne, hlt⟩
    refine ⟨(k, nv), (dlookup_eq_some_iff_mem _ (nodup_dkeys_index_by B key) _ _).1 hB, ?_⟩
    simp [downTriple, hA, hne, hlt]

theorem filterMap_keyed_sublist {ι κ β : Type} (l : List (κ × ι))
    (g : κ × ι → Option (κ × β)) (hg : ∀ kv t, g kv = some t → t.1 = kv.1) :
    ((l.filterMap g).map Prod.fst).Sublist (l.map Prod.fst) := by
  induction l with
  | nil => simp
  | cons kv rest ih =>
    cases hk : g kv with
    | none =>
      rw [List.filterMap_cons, hk, List.map_cons]
      exact ih.cons _
    | some t =>
      rw [List.filterMap_cons, hk, List.map_cons, List.map_cons, hg kv t hk]
      exact ih.cons₂ _

theorem upTriple_key {ι κ : Type} [DecidableEq κ] (old : List (κ × ι))
    (vstr : ι → String) (kv : κ × ι) (t : κ × ι × ι) (h : upTriple old vstr kv = some t) :
    t.1 = kv.1 := by
  cases hov : dlookup old kv.1 with
  | none =>
    have hz : upTriple old vstr kv = none := by simp [upTriple, hov]
    rw [hz] at h; exact absurd h (by simp)
  | some ov =>
    by_cases he : vstr ov = vstr kv.2
    · have hz : upTriple old vstr kv = none := by simp [upTriple, hov, he]
      rw [hz] at h; exact absurd h (by simp)
    · by_cases hlt : pyStrLt (vstr ov) (vstr kv.2) = true
      · have hz : upTriple old vstr kv = some (kv.1, ov, kv.2) := by
          simp [upTriple, hov, he, hlt]
        rw [hz] at h
        rw [← Option.some_injective _ h]
      · have hz : upTriple old vstr kv = none := by simp [upTriple, hov, he, hlt]
        rw [hz] at h; exact absurd h (by simp)

theorem downTriple_key {ι κ : Type} [DecidableEq κ] (old : List (κ × ι))
    (vstr : ι → String) (kv : κ × ι) (t : κ × ι × ι) (h : downTriple old vstr kv = some t) :
    t.1 = kv.1 := by
  cases hov : dlookup old kv.1 with
  | none =>
    have hz : downTriple old vstr kv = none := by simp [downTriple, hov]
    rw [hz] at h; exact absurd h (by simp)
  | some ov =>
    by_cases he : vstr ov = vstr kv.2
    · have hz : downTriple old vstr kv = none := by simp [downTriple, hov, he]
      rw [hz] at h; exact absurd h (by simp)
    · by_cases hlt : pyStrLt (vstr ov) (vstr kv.2) = true
      · have hz : downTriple old vstr kv = none := by simp [downTriple, hov, he, hlt]
        rw [hz] at h; exact absurd h (by simp)
      · have hz : downTriple old vstr kv = some (kv.1, ov, kv.2) := by
          simp [downTriple, hov, he, hlt]
        rw [hz] at h
        rw [← Option.some_injective _ h]

theorem nodup_upgraded_keys {ι κ : Type} [DecidableEq κ] (key : ι → κ)
    (vstr : ι → String) (A B : List ι) :
    ((upgradedTriples key vstr A B).map Prod.fst).Nodup :=
  ((filterMap_keyed_sublist _ _ (upTriple_key (index_by A key) vstr)).nodup
    (nodup_dkeys_index_by B key))

theorem nodup_downgraded_keys {ι κ : Type} [DecidableEq κ] (key : ι → κ)
    (vstr : ι → String) (A B : List ι) :
    ((downgradedTriples key vstr A B).map Prod.fst).Nodup :=
  ((filterMap_keyed_sublist _ _ (downTriple_key (index_by A key) vstr)).nodup
    (nodup_dkeys_index_by B key))

/-- The diff-symmetry fact for the version classes: the identity keys
classified as upgraded by `diff (A, B)` are exactly those classified as
downgraded by `diff (B, A)` (as a permutation of distinct keys). -/
theorem up_down_keys_perm {ι κ : Type} [DecidableEq κ] (key : ι → κ)
    (vstr : ι → String) (A B : List ι) :
    ((upgradedTriples key vstr A B).map Prod.fst).Perm
      ((downgradedTriples key vstr B A).map Prod.fst) := by
  refine (List.perm_ext_iff_of_nodup (nodup_upgraded_keys key vstr A B)
    (nodup_downgraded_keys key vstr B A)).2 ?_
  intro k
  simp only [List.mem_map]
  constructor
  · rintro ⟨t, ht, rfl⟩
    obtain ⟨k0, ov, nv⟩ := t
    rcases (mem_upgradedTriples key vstr A B _ _ _).1 ht with ⟨hA, hB, hne, hlt⟩
    exact ⟨(k0, nv, ov), (mem_downgradedTriples key vstr B A _ _ _).2
      ⟨hB, hA, fun h => hne h.symm, pyStrLt_asymm hlt⟩, rfl⟩
  · rintro ⟨t, ht, rfl⟩
    obtain ⟨k0, bv, av⟩ := t
    rcases (mem_downgradedTriples key vstr B A _ _ _).1 ht with ⟨hB, hA, hne, hlt⟩
    have hlt2 : pyStrLt (vstr av) (vstr bv) = true := by
      cases h : pyStrLt (vstr av) (vstr bv) with
      | true => rfl
      | false => exact absurd (pyStrLt_connex hlt h).symm (fun hh => hne hh.symm)
    exact ⟨(k0, av, bv), (mem_upgradedTriples key vstr A B _ _ _).2
      ⟨hA, hB, fun h => hne h.symm, hlt2⟩, rfl⟩

/-! ## Reconciliation lemmas -/

theorem nodup_dkeys_collsFromDictFields (fields : List (String × Json)) :
    (dkeys (collsFromDictFields fields)).Nodup := by
  refine nodup_dkeys_foldl _ ?_ fields [] (by simp [dkeys])
  intro m kv
  obtain ⟨k1, v1⟩ := kv
  cases v1 with
  | obj vf =>
    cases hv : dlookup vf "version" with
    | some ver =>
      by_cases hdot : pyContainsChar k1 '.' = true
      · exact Or.inr ⟨k1, pyStr ver, by simp [hv, hdot]⟩
      · exact Or.inl (by simp [hv, hdot])
    | none => exact Or.inl (by simp [hv])
  | null => exact Or.inl rfl
  | bool b => exact Or.inl rfl
  | num n => exact Or.inl rfl
  | str s => exact Or.inl rfl
  | arr es => exact Or.inl rfl

theorem nodup_dkeys_collsFromListElems (elems : List Json) :
    (dkeys (collsFromListElems elems)).Nodup := by
  refine nodup_dkeys_foldl _ ?_ elems [] (by simp [dkeys])
  intro m e
  cases e with
  | obj ef =>
    cases hns : dlookup ef "namespace" with
    | none => exact Or.inl (by simp [hns])
    | some ns =>
      cases hnm : dlookup ef "name" with
      | none => exact Or.inl (by simp [hns, hnm])
      | some nm =>
        cases hver : dlookup ef "version" with
        | none => exact Or.inl (by simp [hns, hnm, hver])
        | some ver =>
          exact Or.inr ⟨pyStr ns ++ "." ++ pyStr nm, pyStr ver, by simp [hns, hnm, hver]⟩
  | null => exact Or.inl rfl
  | bool b => exact Or.inl rfl
  | num n => exact Or.inl rfl
  | str s => exact Or.inl rfl
  | arr es => exact Or.inl rfl

theorem nodup_dkeys_colls_from_obj (obj : Json) :
    (dkeys (_colls_from_obj obj)).Nodup := by
  unfold _colls_from_obj
  cases colls_source_obj obj with
  | obj fields => exact nodup_dkeys_collsFromDictFields fields
  | arr elems => exact nodup_dkeys_collsFromListElems elems
  | null => simp [dkeys]
  | bool b => simp [dkeys]
  | num n => simp [dkeys]
  | str s => simp [dkeys]

theorem getD_prop {α : Type} (P : α → Prop) :
    ∀ (l : List α) (n : Nat) (d : α), (∀ x ∈ l, P x) → P d → P (l.getD n d)
  | [], n, d, _, hd => by simpa using hd
  | x :: xs, 0, d, hl, _ => by simpa using hl x (by simp)
  | x :: xs, n + 1, d, hl, hd => by
    simpa using getD_prop P xs n d (fun y hy => hl y (List.mem_cons_of_mem _ hy)) hd

theorem nodup_coll_maps_getD (jparse : String → Json) (text : String) (n : Nat) :
    (dkeys ((coll_maps jparse text).getD n [])).Nodup := by
  refine getD_prop (fun m => (dkeys m).Nodup) _ n [] ?_ (by simp [dkeys])
  intro m hm
  unfold coll_maps at hm
  rcases List.mem_append.1 hm with h | h
  · rcases List.mem_map.1 h with ⟨ch, _, rfl⟩
    exact nodup_dkeys_colls_from_obj _
  · rw [List.eq_of_mem_replicate h]
    simp [dkeys]

theorem nodup_dkeys_merged_map (jparse : String → Json) (text : String) :
    (dkeys (merged_map jparse text)).Nodup := by
  unfold merged_map
  simp only [List.foldl_cons, List.foldl_nil]
  refine nodup_dkeys_foldl _
    (fun (m : List (String × String)) (nv : String × String) =>
      Or.inr ⟨nv.1, nv.2, rfl⟩) _ _ ?_
  refine nodup_dkeys_foldl _
    (fun (m : List (String × String)) (nv : String × String) =>
      Or.inr ⟨nv.1, nv.2, rfl⟩) _ _ ?_
  refine nodup_dkeys_foldl _
    (fun (m : List (String × String)) (nv : String × String) =>
      Or.inr ⟨nv.1, nv.2, rfl⟩) _ _ ?_
  simp [dkeys]

/-- The merged mapping looks keys up with the documented precedence:
galaxy first, then filesystem, then rpm-derived. -/
theorem dlookup_merged_map (jparse : String → Json) (text : String) (k : String) :
    dlookup (merged_map jparse text) k =
      oFirst (dlookup ((coll_maps jparse text).getD 0 []) k)
        (oFirst (dlookup ((coll_maps jparse text).getD 1 []) k)
          (dlookup ((coll_maps jparse text).getD 2 []) k)) := by
  unfold merged_map
  simp only [List.foldl_cons, List.foldl_nil]
  rw [dlookup_foldl_dinsert, dlookup_foldl_dinsert, dlookup_foldl_dinsert]
  rw [dlookup_reverse_of_nodup _ (nodup_coll_maps_getD jparse text 0),
    dlookup_reverse_of_nodup _ (nodup_coll_maps_getD jparse text 1),
    dlookup_reverse_of_nodup _ (nodup_coll_maps_getD jparse text 2)]
  cases dlookup ((coll_maps jparse text).getD 0 []) k <;>
    cases dlookup ((coll_maps jparse text).getD 1 []) k <;>
      cases dlookup ((coll_maps jparse text).getD 2 []) k <;>
        simp [oFirst, dlookup]

/-! ## Escaping soundness -/

/-- A scan accepting exactly the character lists in which `<`, `>`, and both
quote characters never occur, and every `&` starts one of the five entities
emitted by `escape`. -/
def escapedOkCL : List Char → Bool
  | [] => true
  | c :: rest =>
    if c == '<' || c == '>' || c == '"' || c == '\'' then false
    else if c == '&' then
      (isPrefixCL ['a', 'm', 'p', ';'] rest || isPrefixCL ['l', 't', ';'] rest ||
        isPrefixCL ['g', 't', ';'] rest || isPrefixCL ['q', 'u', 'o', 't', ';'] rest ||
        isPrefixCL ['#', 'x', '2', '7', ';'] rest) && escapedOkCL rest
    else escapedOkCL rest

theorem escapedOk_escapeCL (cs : List Char) : escapedOkCL (escapeCL cs) = true := by
  induction cs with
  | nil => rfl
  | cons c rest ih =>
    rw [escapeCL]
    by_cases h1 : c = '&'
    · subst h1; simp [escapeChar, escapedOkCL, isPrefixCL, ih]
    · by_cases h2 : c = '<'
      · subst h2; simp [escapeChar, escapedOkCL, isPrefixCL, ih]
      · by_cases h3 : c = '>'
        · subst h3; simp [escapeChar, escapedOkCL, isPrefixCL, ih]
        · by_cases h4 : c = '"'
          · subst h4; simp [escapeChar, escapedOkCL, isPrefixCL, ih]
          · by_cases h5 : c = '\''
            · subst h5; simp [escapeChar, escapedOkCL, isPrefixCL, ih]
            · have hc : escapeChar c = [c] := by simp [escapeChar, h1, h2, h3, h4, h5]
              rw [hc]
              simp only [List.cons_append, List.nil_append]
              rw [escapedOkCL]
              simp [h1, h2, h3, h4, h5, ih]

/-! ## Generic claim blocks for the two diff instances -/

theorem diff_partition_block {ι κ : Type} [DecidableEq κ] (key : ι → κ)
    (vstr : ι → String) (fa fr : ι → String) (fu fd : ι → String → String → String)
    (A B : List ι) :
    (diff_generic key vstr fa fr fu fd A B).added =
        (addedPairs key A B).map (fun kv => fa kv.2)
    ∧ (diff_generic key vstr fa fr fu fd A B).removed =
        (addedPairs key B A).map (fun kv => fr kv.2)
    ∧ (diff_generic key vstr fa fr fu fd A B).upgraded =
        (upgradedTriples key vstr A B).map (fun t => fu t.2.2 (vstr t.2.1) (vstr t.2.2))
    ∧ (diff_generic key vstr fa fr fu fd A B).downgraded =
        (downgradedTriples key vstr A B).map (fun t => fd t.2.2 (vstr t.2.1) (vstr t.2.2))
    ∧ (∀ (k : κ) (r : ι), (k, r) ∈ addedPairs key A B ↔
        dlookup (index_by B key) k = some r ∧ k ∉ dkeys (index_by A key))
    ∧ (∀ (k : κ) (ov nv : ι), (k, ov, nv) ∈ upgradedTriples key vstr A B ↔
        dlookup (index_by A key) k = some ov ∧ dlookup (index_by B key) k = some nv ∧
        vstr ov ≠ vstr nv ∧ pyStrLt (vstr ov) (vstr nv) = true)
    ∧ (∀ (k : κ) (ov nv : ι), (k, ov, nv) ∈ downgradedTriples key vstr A B ↔
        dlookup (index_by A key) k = some ov ∧ dlookup (index_by B key) k = some nv ∧
        vstr ov ≠ vstr nv ∧ pyStrLt (vstr ov) (vstr nv) = false)
    ∧ diff_total (diff_generic key vstr fa fr fu fd A B) +
        (unchangedPairs key vstr A B).length =
        (unionKeys (index_by A key) (index_by B key)).length := by
  have h := diff_generic_eq key vstr fa fr fu fd A B
  refine ⟨by rw [h], by rw [h], by rw [h], by rw [h],
    mem_addedPairs key A B, mem_upgradedTriples key vstr A B,
    mem_downgradedTriples key vstr A B, ?_⟩
  have hcount := diff_count_identity key vstr A B
  rw [diff_total, h]
  simp only [List.length_map]
  omega

theorem diff_symmetry_block {ι κ : Type} [DecidableEq κ] (key : ι → κ)
    (vstr : ι → String) (fa fr : ι → String) (fu fd : ι → String → String → String)
    (A B : List ι) :
    (diff_generic key vstr fa fr fu fd A B).added =
        (addedPairs key A B).map (fun kv => fa kv.2)
    ∧ (diff_generic key vstr fa fr fu fd B A).removed =
        (addedPairs key A B).map (fun kv => fr kv.2)
    ∧ (diff_generic key vstr fa fr fu fd A B).added.length =
        (diff_generic key vstr fa fr fu fd B A).removed.length
    ∧ (diff_generic key vstr fa fr fu fd A B).removed.length =
        (diff_generic key vstr fa fr fu fd B A).added.length
    ∧ ((upgradedTriples key vstr A B).map Prod.fst).Perm
        ((downgradedTriples key vstr B A).map Prod.fst)
    ∧ (diff_generic key vstr fa fr fu fd A B).upgraded.length =
        (diff_generic key vstr fa fr fu fd B A).downgraded.length
    ∧ (diff_generic key vstr fa fr fu fd A B).downgraded.length =
        (diff_generic key vstr fa fr fu fd B A).upgraded.length := by
  have hAB := diff_generic_eq key vstr fa fr fu fd A B
  have hBA := diff_generic_eq key vstr fa fr fu fd B A
  have hperm := up_down_keys_perm key vstr A B
  have hperm2 := up_down_keys_perm key vstr B A
  refine ⟨by rw [hAB], by rw [hBA], ?_, ?_, hperm, ?_, ?_⟩
  · rw [hAB, hBA]; simp [List.length_map]
  · rw [hAB, hBA]; simp [List.length_map]
  · rw [hAB, hBA]
    simp only [List.length_map]
    have := hperm.length_eq
    simpa [List.length_map] using this
  · rw [hAB, hBA]
    simp only [List.length_map]
    have := hperm2.length_eq
    simpa [List.length_map] using this.symm

/-! ## Claim theorems -/

theorem coll_chunks_length_le (text : String) : (coll_chunks text).length ≤ 3 := by
  simp only [coll_chunks]
  split
  · exact List.length_take_le 3 _
  next h => omega

/-- The source-map list always has exactly three entries: fewer chunks are
padded with empty maps, more than three chunks are truncated. -/
theorem coll_maps_length (jparse : String → Json) (text : String) :
    (coll_maps jparse text).length = 3 := by
  have h := coll_chunks_length_le text
  simp only [coll_maps, List.length_append, List.length_map, List.length_replicate]
  omega

/-- A four-chunk input: the fourth chunk defines `c.d`, which reconciliation
must ignore. -/
def c1_truncation_text : String :=
  "\x7b\"a.b\":\x7b\"version\":\"1\"\x7d\x7d===COLL SEP===\x7b\x7d===COLL SEP===" ++
  "\x7b\x7d===COLL SEP===\x7b\"c.d\":\x7b\"version\":\"9\"\x7d\x7d"

/-- A single-chunk input: the one chunk is the galaxy source. -/
def c1_single_chunk_text : String := "\x7b\"a.b\":\x7b\"version\":\"1\"\x7d\x7d"

/-- The §8 collection-merge scenario input: the three JSON chunks in the
fixed order galaxy, filesystem, rpm-derived. -/
def c1_scenario_text : String :=
  "\x7b\"community.general\":\x7b\"version\":\"7.0.0\"\x7d\x7d===COLL SEP===\x7b\x7d" ++
  "===COLL SEP===\x7b\"community.general\":\x7b\"version\":\"6.0.0\"\x7d, " ++
  "\"ansible.posix\":\x7b\"version\":\"1.5.0\"\x7d\x7d"

set_option maxRecDepth 400000

/-- C1.  Collection reconciliation: for any input text (split into up to
three chunks in the fixed order galaxy, filesystem, rpm-derived, missing
chunks empty, extra chunks dropped — all inside `coll_maps`), the merged
result of `parse_collections_merged` contains a record `(n, v)` exactly when
the highest-precedence source defining `n` (galaxy over filesystem over
rpm-derived) maps it to `v`; there are always exactly three source maps
(missing chunks are empty maps, chunks beyond the third are dropped, as the
truncation and single-chunk scenarios also evaluate); and the §8 scenario
yields the sorted list `[(ansible.posix, 1.5.0), (community.general, 7.0.0)]`. -/
theorem C1_collection_reconciliation :
    (∀ (jparse : String → Json) (text : String) (n v : String),
      SimplePkg.mk n v ∈ parse_collections_merged jparse text ↔
        oFirst (dlookup ((coll_maps jparse text).getD 0 []) n)
          (oFirst (dlookup ((coll_maps jparse text).getD 1 []) n)
            (dlookup ((coll_maps jparse text).getD 2 []) n)) = some v)
    ∧ (∀ (jparse : String → Json) (text : String), (coll_maps jparse text).length = 3)
    ∧ parse_collections_merged json_loads c1_scenario_text =
        [⟨"ansible.posix", "1.5.0"⟩, ⟨"community.general", "7.0.0"⟩]
    ∧ parse_collections_merged json_loads c1_truncation_text = [⟨"a.b", "1"⟩]
    ∧ parse_collections_merged json_loads c1_single_chunk_text = [⟨"a.b", "1"⟩] := by
  refine ⟨?_, coll_maps_length, by decide, by decide, by decide⟩
  intro jparse text n v
  rw [← dlookup_merged_map]
  simp only [parse_collections_merged]
  rw [(pySorted_perm pkgLowerLe _).mem_iff, List.mem_map]
  constructor
  · rintro ⟨⟨a, b⟩, hmem, hmk⟩
    simp only [SimplePkg.mk.injEq] at hmk
    obtain ⟨rfl, rfl⟩ := hmk
    exact (dlookup_eq_some_iff_mem _ (nodup_dkeys_merged_map jparse text) _ _).2 hmem
  · intro hl
    exact ⟨(n, v),
      (dlookup_eq_some_iff_mem _ (nodup_dkeys_merged_map jparse text) _ _).1 hl, rfl⟩

/-- C2.  Diff partition for both record classes: the four output lists of
`diff_rpms` and `diff_simple_pkgs` are exactly the formatted added / removed /
upgraded / downgraded classifications of the identity-keyed dictionaries (a
key of `new` missing from `old` is added, a key of `old` missing from `new`
is removed, a key of both with differing effective versions is upgraded
exactly when `old < new` by string comparison and downgraded otherwise, equal
versions produce nothing), and the class sizes together with the unchanged
keys count up to the number of distinct identity keys in the union. -/
theorem C2_diff_partition :
    ∀ (A B : List Rpm) (C D : List SimplePkg),
      ((diff_rpms A B).added =
          (addedPairs rpm_key_name_arch A B).map (fun kv => rpmFmtAdd kv.2)
        ∧ (diff_rpms A B).removed =
            (addedPairs rpm_key_name_arch B A).map (fun kv => rpmFmtRem kv.2)
        ∧ (diff_rpms A B).upgraded =
            (upgradedTriples rpm_key_name_arch rpm_version_str A B).map
              (fun t => rpmFmtUp t.2.2 (rpm_version_str t.2.1) (rpm_version_str t.2.2))
        ∧ (diff_rpms A B).downgraded =
            (downgradedTriples rpm_key_name_arch rpm_version_str A B).map
              (fun t => rpmFmtDown t.2.2 (rpm_version_str t.2.1) (rpm_version_str t.2.2))
        ∧ (∀ (k : String × String) (r : Rpm),
            (k, r) ∈ addedPairs rpm_key_name_arch A B ↔
              dlookup (index_by B rpm_key_name_arch) k = some r ∧
              k ∉ dkeys (index_by A rpm_key_name_arch))
        ∧ (∀ (k : String × String) (ov nv : Rpm),
            (k, ov, nv) ∈ upgradedTriples rpm_key_name_arch rpm_version_str A B ↔
              dlookup (index_by A rpm_key_name_arch) k = some ov ∧
              dlookup (index_by B rpm_key_name_arch) k = some nv ∧
              rpm_version_str ov ≠ rpm_version_str nv ∧
              pyStrLt (rpm_version_str ov) (rpm_version_str nv) = true)
        ∧ (∀ (k : String × String) (ov nv : Rpm),
            (k, ov, nv) ∈ downgradedTriples rpm_key_name_arch rpm_version_str A B ↔
              dlookup (index_by A rpm_key_name_arch) k = some ov ∧
              dlookup (index_by B rpm_key_name_arch) k = some nv ∧
              rpm_version_str ov ≠ rpm_version_str nv ∧
              pyStrLt (rpm_version_str ov) (rpm_version_str nv) = false)
        ∧ diff_total (diff_rpms A B) +
            (unchangedPairs rpm_key_name_arch rpm_version_str A B).length =
            (unionKeys (index_by A rpm_key_name_arch) (index_by B rpm_key_name_arch)).length)
      ∧ ((diff_simple_pkgs C D).added =
            (addedPairs pkg_key C D).map (fun kv => pkgFmtAdd kv.2)
        ∧ (diff_simple_pkgs C D).removed =
            (addedPairs pkg_key D C).map (fun kv => pkgFmtRem kv.2)
        ∧ (diff_simple_pkgs C D).upgraded =
            (upgradedTriples pkg_key (fun p => p.version) C D).map
              (fun t => pkgFmtUp t.2.2 t.2.1.version t.2.2.version)
        ∧ (diff_simple_pkgs C D).downgraded =
            (downgradedTriples pkg_key (fun p => p.version) C D).map
              (fun t => pkgFmtDown t.2.2 t.2.1.version t.2.2.version)
        ∧ (∀ (k : String) (r : SimplePkg),
            (k, r) ∈ addedPairs pkg_key C D ↔
              dlookup (index_by D pkg_key) k = some r ∧ k ∉ dkeys (index_by C pkg_key))
        ∧ (∀ (k : String) (ov nv : SimplePkg),
            (k, ov, nv) ∈ upgradedTriples pkg_key (fun p => p.version) C D ↔
              dlookup (index_by C pkg_key) k = some ov ∧
              dlookup (index_by D pkg_key) k = some nv ∧
              ov.version ≠ nv.version ∧ pyStrLt ov.version nv.version = true)
        ∧ (∀ (k : String) (ov nv : SimplePkg),
            (k, ov, nv) ∈ downgradedTriples pkg_key (fun p => p.version) C D ↔
              dlookup (index_by C pkg_key) k = some ov ∧
              dlookup (index_by D pkg_key) k = some nv ∧
              ov.version ≠ nv.version ∧ pyStrLt ov.version nv.version = false)
        ∧ diff_total (diff_simple_pkgs C D) +
            (unchangedPairs pkg_key (fun p => p.version) C D).length =
            (unionKeys (index_by C pkg_key) (index_by D pkg_key)).length) := by
  intro A B C D
  exact ⟨diff_partition_block rpm_key_name_arch rpm_version_str
      rpmFmtAdd rpmFmtRem rpmFmtUp rpmFmtDown A B,
    diff_partition_block pkg_key (fun p => p.version)
      pkgFmtAdd pkgFmtRem pkgFmtUp pkgFmtDown C D⟩

/-- C3.  Diff symmetry for both record classes: diffing `(A, B)` and then
`(B, A)` swaps added with removed (the very same classified records, formatted
with the other sign) and swaps upgraded with downgraded (the same distinct
identity keys, as a permutation), with the corresponding lengths equal.
String comparison is anti-symmetric on unequal strings (proved, not
assumed: `pyStrLt_asymm`/`pyStrLt_connex`). -/
theorem C3_diff_symmetry :
    ∀ (A B : List Rpm) (C D : List SimplePkg),
      ((diff_rpms A B).added =
          (addedPairs rpm_key_name_arch A B).map (fun kv => rpmFmtAdd kv.2)
        ∧ (diff_rpms B A).removed =
            (addedPairs rpm_key_name_arch A B).map (fun kv => rpmFmtRem kv.2)
        ∧ (diff_rpms A B).added.length = (diff_rpms B A).removed.length
        ∧ (diff_rpms A B).removed.length = (diff_rpms B A).added.length
        ∧ ((upgradedTriples rpm_key_name_arch rpm_version_str A B).map Prod.fst).Perm
            ((downgradedTriples rpm_key_name_arch rpm_version_str B A).map Prod.fst)
        ∧ (diff_rpms A B).upgraded.length = (diff_rpms B A).downgraded.length
        ∧ (diff_rpms A B).downgraded.length = (diff_rpms B A).upgraded.length)
      ∧ ((diff_simple_pkgs C D).added =
            (addedPairs pkg_key C D).map (fun kv => pkgFmtAdd kv.2)
        ∧ (diff_simple_pkgs D C).removed =
            (addedPairs pkg_key C D).map (fun kv => pkgFmtRem kv.2)
        ∧ (diff_simple_pkgs C D).added.length = (diff_simple_pkgs D C).removed.length
        ∧ (diff_simple_pkgs C D).removed.length = (diff_simple_pkgs D C).added.length
        ∧ ((upgradedTriples pkg_key (fun p => p.version) C D).map Prod.fst).Perm
            ((downgradedTriples pkg_key (fun p => p.version) D C).map Prod.fst)
        ∧ (diff_simple_pkgs C D).upgraded.length = (diff_simple_pkgs D C).downgraded.length
        ∧ (diff_simple_pkgs C D).downgraded.length =
            (diff_simple_pkgs D C).upgraded.length) := by
  intro A B C D
  exact ⟨diff_symmetry_block rpm_key_name_arch rpm_version_str
      rpmFmtAdd rpmFmtRem rpmFmtUp rpmFmtDown A B,
    diff_symmetry_block pkg_key (fun p => p.version)
      pkgFmtAdd pkgFmtRem pkgFmtUp pkgFmtDown C D⟩

/-- C4 counterexample.  On the §8 input the parser yields exactly one record,
but with epoch `"0"`, not `""`: the code keeps any non-empty epoch other than
the literal `(none)` placeholder, and `0` is a truthy string. -/
theorem C4_counterexample :
    parse_rpm_lines "bash|0|5.1.8|6.el9|x86_64\nmalformed-line\n" =
      [⟨"bash", "0", "5.1.8", "6.el9", "x86_64"⟩] ∧
    parse_rpm_lines "bash|0|5.1.8|6.el9|x86_64\nmalformed-line\n" ≠
      [⟨"bash", "", "5.1.8", "6.el9", "x86_64"⟩] := by
  exact ⟨by decide, by decide⟩

/-- C4 as amended.  The scenario input yields exactly one record — the
malformed line is silently skipped — with epoch kept as `"0"`; only an empty
epoch field or the literal `(none)` placeholder is normalized to the empty
string. -/
theorem C4_rpm_parser_scenario :
    parse_rpm_lines "bash|0|5.1.8|6.el9|x86_64\nmalformed-line\n" =
      [⟨"bash", "0", "5.1.8", "6.el9", "x86_64"⟩] ∧
    parse_rpm_lines "bash|(none)|5.1.8|6.el9|x86_64\n" =
      [⟨"bash", "", "5.1.8", "6.el9", "x86_64"⟩] ∧
    parse_rpm_lines "bash||5.1.8|6.el9|x86_64\n" =
      [⟨"bash", "", "5.1.8", "6.el9", "x86_64"⟩] := by
  exact ⟨by decide, by decide, by decide⟩

/-! ## C5: tag derivation -/

theorem tagGroupSearch_ne_nil :
    ∀ (fuel : Nat) (cs g : List Char), tagGroupSearch fuel cs = some g → g ≠ [] := by
  intro fuel
  induction fuel with
  | zero => intro cs g h; simp [tagGroupSearch] at h
  | succ n ih =>
    intro cs g h
    cases cs with
    | nil => simp [tagGroupSearch] at h
    | cons c1 rest =>
      cases rest with
      | nil => simp [tagGroupSearch] at h
      | cons c2 rest2 =>
        simp only [tagGroupSearch] at h
        by_cases hc : (c1 == '_' && c2 == '_' && !rest2.isEmpty &&
            rest2.all (fun c => c != '.' && c != '/')) = true
        · rw [if_pos hc] at h
          obtain rfl : rest2 = g := Option.some_injective _ h
          intro hg
          subst hg
          simp at hc
        · rw [if_neg hc] at h
          exact ih _ _ h

theorem tagFromFilename_ne_empty (p g : String) (h : tagFromFilename p = some g) :
    g ≠ "" := by
  unfold tagFromFilename at h
  by_cases he : endsWithCL ".xml".data p.data = true
  · rw [if_pos he] at h
    rcases Option.map_eq_some'.1 h with ⟨gl, hgl, rfl⟩
    intro hg
    exact tagGroupSearch_ne_nil _ _ _ hgl (congrArg String.data hg)
  · rw [if_neg he] at h
    exact absurd h (by simp)

/-- The tag derivation as the amended claim words it: first non-empty result
among (1) the field between the first and second colon of the last
`/`-segment of the reference when that segment contains a colon, (2) the
text after the last colon of the first repoTag entry containing a colon,
(3) the group of the trailing `__<tag>.xml` filename pattern, and (4) the
bare filename stem. -/
def spec_tag (d : XmlDoc) : String :=
  let seg := lastSegment d.reference
  let r1 := if pyContainsChar seg ':' then (pySplit seg ":").getD 1 "" else ""
  if r1 ≠ "" then r1
  else if tagFromRepoTags d.repoTags ≠ "" then tagFromRepoTags d.repoTags
  else
    match tagFromFilename d.pathStr with
    | some g => g
    | none => pyStem d.pathStr

/-- Rule (1) exactly as the original claim states it: the substring after the
last colon of the last `/`-segment of the reference. -/
def claim_tag_rule1 (ref : String) : String :=
  let seg := lastSegment ref
  if pyContainsChar seg ':' then (pySplit seg ":").getLastD "" else ""

/-- C5 counterexample.  For the reference `repo/img:1.0:beta` the loader
derives the tag `1.0` (the field between the first and second colon), not
the claimed after-the-last-colon `beta`; and a filename `img__v2.txt` does
not trigger the filename rule (the pattern requires the `.xml` extension),
falling back to the stem `img__v2` instead of `v2`. -/
theorem C5_counterexample :
    derived_tag ⟨"repo/img:1.0:beta", "", [], "xml-out/x.xml", [], [], []⟩ = "1.0" ∧
    claim_tag_rule1 "repo/img:1.0:beta" = "beta" ∧
    derived_tag ⟨"repo/img:1.0:beta", "", [], "xml-out/x.xml", [], [], []⟩ ≠
      claim_tag_rule1 "repo/img:1.0:beta" ∧
    derived_tag ⟨"", "", [], "dir/img__v2.txt", [], [], []⟩ = "img__v2" := by
  exact ⟨by decide, by decide, by decide, by decide⟩

/-- C5 as amended.  For every loaded document the derived tag is the first
non-empty match in preference order: (1) the field between the first and
second colon of the last `/`-segment of the reference, when that segment
contains a colon; (2) the text after the last colon of the first stripped
repoTag entry containing a colon; (3) the group captured by the trailing
`__<tag>.xml` filename pattern (tag free of dots and slashes); (4) the bare
filename stem. -/
theorem C5_tag_derivation :
    ∀ d : XmlDoc, derived_tag d = spec_tag d := by
  intro d
  have hshow : tagFromRef d.reference =
      (if pyContainsChar (lastSegment d.reference) ':' = true
        then (pySplit (lastSegment d.reference) ":").getD 1 "" else "") := rfl
  simp only [derived_tag, spec_tag, ← hshow]
  cases hf : tagFromFilename d.pathStr with
  | none => split_ifs <;> simp_all
  | some g =>
    have hg : g ≠ "" := tagFromFilename_ne_empty _ _ hf
    split_ifs <;> simp_all

/-! ## C6: timestamp sentinel -/

/-- C6.  The timestamp derivation is total and substitutes the sentinel
minimum: an absent `created` attribute or a parse failure of the trimmed
string yields `datetime_min`; the derived value is never below the
sentinel; snapshot sorting (by `(orderingTimestamp, tag)`) always succeeds,
producing a permutation ordered by `entryLe`; and an undated snapshot sorts
before every snapshot with a later (non-sentinel) timestamp. -/
theorem C6_timestamp_sentinel :
    ∀ (fromiso : String → Option Nat) (s : String),
      (s = "" → snapshot_created fromiso s = datetime_min)
      ∧ (fromiso (strip_created s) = none → snapshot_created fromiso s = datetime_min)
      ∧ datetime_min ≤ snapshot_created fromiso s
      ∧ (∀ entries : List Snapshot,
          (sortEntries entries).Perm entries
          ∧ (sortEntries entries).Pairwise (fun a b => entryLe a b = true))
      ∧ (∀ a b : Snapshot, a.created = datetime_min → b.created ≠ datetime_min →
          entryLe a b = true) := by
  intro fromiso s
  refine ⟨?_, ?_, ?_, ?_, ?_⟩
  · intro h
    simp [snapshot_created, h]
  · intro h
    by_cases hs : s = ""
    · simp [snapshot_created, hs]
    · simp [snapshot_created, hs, h]
  · exact Nat.zero_le _
  · intro entries
    exact ⟨pySorted_perm entryLe entries,
      pySorted_pairwise entryLe entryLe_total entryLe_trans entries⟩
  · intro a b ha hb
    have h1 : ¬ b.created < a.created := by
      rw [ha]; exact Nat.not_lt_zero _
    have h2 : ¬ b.created = a.created := by
      rw [ha]; exact hb
    simp [entryLe, entryLt, pairLtNS, entry_sort_key, h1, h2]

theorem C6_witness :
    snapshot_created (fun _ => none) "2024-05-06T07:08:09.123456789Z" = datetime_min ∧
    snapshot_created (fun _ => some 5) "" = datetime_min := by
  exact ⟨(C6_timestamp_sentinel (fun _ => none) "2024-05-06T07:08:09.123456789Z").2.1 rfl,
    (C6_timestamp_sentinel (fun _ => some 5) "").1 rfl⟩

/-! ## C7: builder determinism -/

/-- C7.  The document builder stores the three package lists sorted
deterministically: the rpms are a permutation of the input ordered ascending
by the `(name, arch, version, release)` tuple, and the interpreted packages
and collections are permutations ordered by case-insensitive name; building
twice from identical input yields identical documents. -/
theorem C7_builder_determinism :
    ∀ (ref : String) (meta : List (String × Json)) (rpms : List Rpm)
      (pips cols : List SimplePkg),
      ((make_xml ref meta rpms pips cols).rpms.Perm rpms
        ∧ (make_xml ref meta rpms pips cols).rpms.Pairwise
            (fun a b => rpmSortLe a b = true))
      ∧ ((make_xml ref meta rpms pips cols).python.Perm pips
        ∧ (make_xml ref meta rpms pips cols).python.Pairwise
            (fun a b => pkgLowerLe a b = true))
      ∧ ((make_xml ref meta rpms pips cols).collections.Perm cols
        ∧ (make_xml ref meta rpms pips cols).collections.Pairwise
            (fun a b => pkgLowerLe a b = true))
      ∧ make_xml ref meta rpms pips cols = make_xml ref meta rpms pips cols := by
  intro ref meta rpms pips cols
  have hr : (make_xml ref meta rpms pips cols).rpms = pySorted rpmSortLe rpms := rfl
  have hp : (make_xml ref meta rpms pips cols).python = pySorted pkgLowerLe pips := rfl
  have hc : (make_xml ref meta rpms pips cols).collections = pySorted pkgLowerLe cols := rfl
  refine ⟨⟨?_, ?_⟩, ⟨?_, ?_⟩, ⟨?_, ?_⟩, rfl⟩
  · rw [hr]; exact pySorted_perm rpmSortLe rpms
  · rw [hr]; exact pySorted_pairwise rpmSortLe rpmSortLe_total rpmSortLe_trans rpms
  · rw [hp]; exact pySorted_perm pkgLowerLe pips
  · rw [hp]; exact pySorted_pairwise pkgLowerLe pkgLowerLe_total pkgLowerLe_trans pips
  · rw [hc]; exact pySorted_perm pkgLowerLe cols
  · rw [hc]; exact pySorted_pairwise pkgLowerLe pkgLowerLe_total pkgLowerLe_trans cols

/-! ## C8: identity-key uniqueness -/

/-- C8 counterexample.  The builder does not deduplicate: two parsed rpm
records sharing the identity key `(pkg, x86_64)` (with different versions)
both appear in the stored document, so identity keys are not unique within
the rpms collection. -/
theorem C8_counterexample :
    ((make_xml "r" [] (parse_rpm_lines "pkg|0|1|1|x86_64\npkg|0|2|1|x86_64\n")
        [] []).rpms.map rpm_key_name_arch) =
      [("pkg", "x86_64"), ("pkg", "x86_64")] ∧
    ¬ ((make_xml "r" [] (parse_rpm_lines "pkg|0|1|1|x86_64\npkg|0|2|1|x86_64\n")
        [] []).rpms.map rpm_key_name_arch).Nodup := by
  exact ⟨by decide, by decide⟩

/-- C8 as amended.  In a document built from reconciled collections, the
collection names are unique (the reconciler emits a keyed mapping, so
exact-name uniqueness holds); the rpms and interpreted-package lists are
sorted but not deduplicated, so their identity-key multisets are exactly
those of the parsed input — identity keys are unique there precisely when
they were unique in the input. -/
theorem C8_identity_keys :
    ∀ (jparse : String → Json) (text ref : String) (meta : List (String × Json))
      (rpms : List Rpm) (pips : List SimplePkg),
      ((make_xml ref meta rpms pips (parse_collections_merged jparse text)).collections.map
        SimplePkg.name).Nodup
      ∧ ((make_xml ref meta rpms pips (parse_collections_merged jparse text)).rpms.map
          rpm_key_name_arch).Perm (rpms.map rpm_key_name_arch)
      ∧ ((make_xml ref meta rpms pips (parse_collections_merged jparse text)).python.map
          pkg_key).Perm (pips.map pkg_key) := by
  intro jparse text ref meta rpms pips
  have hc : (make_xml ref meta rpms pips (parse_collections_merged jparse text)).collections =
      pySorted pkgLowerLe (parse_collections_merged jparse text) := rfl
  refine ⟨?_, (pySorted_perm rpmSortLe rpms).map rpm_key_name_arch,
    (pySorted_perm pkgLowerLe pips).map pkg_key⟩
  rw [hc]
  have h1 : (pySorted pkgLowerLe (parse_collections_merged jparse text)).Perm
      (parse_collections_merged jparse text) := pySorted_perm _ _
  have h2 : (parse_collections_merged jparse text).Perm
      ((merged_map jparse text).map (fun nv => SimplePkg.mk nv.1 nv.2)) :=
    pySorted_perm _ _
  have h3 := (h1.trans h2).map SimplePkg.name
  rw [h3.nodup_iff]
  have h4 : ((merged_map jparse text).map
      (fun nv => SimplePkg.mk nv.1 nv.2)).map SimplePkg.name = dkeys (merged_map jparse text) := by
    simp [List.map_map, dkeys]
  rw [h4]
  exact nodup_dkeys_merged_map jparse text

/-! ## C9: cell rendering -/

/-- C9.  Cell rendering: a zero-change diff renders exactly the explicit
no-changes marker (no counts line, no list); a nonzero diff renders the
counts line, then the inline sample (at most half the limit from added and
at most half from upgraded; no list element at all when the sample is
empty), then — exactly when entries remain unshown — a collapsed block
labeled with the total count containing the complete four-way breakdown as
separate labeled sublists. -/
theorem C9_cell_rendering :
    ∀ (d : DiffOut) (lim : Nat),
      (diff_total d = 0 → cell_html d lim = "<div class=\x27empty\x27>No changes</div>")
      ∧ (diff_total d ≠ 0 →
          cell_html d lim =
            counts_line d ++
            (if (d.added.take (lim / 2) ++ d.upgraded.take (lim / 2)).isEmpty then ""
              else "<ul>" ++ String.join
                ((d.added.take (lim / 2) ++ d.upgraded.take (lim / 2)).map li_item) ++
                "</ul>") ++
            (if diff_total d - (d.added.take (lim / 2) ++ d.upgraded.take (lim / 2)).length > 0
              then "<details><summary>Show all (" ++ toString (diff_total d) ++
                ")</summary>" ++ to_list "Added" d.added ++ to_list "Upgraded" d.upgraded ++
                to_list "Downgraded" d.downgraded ++ to_list "Removed" d.removed ++
                "</details>"
              else "")
          ∧ (d.added.take (lim / 2)).length ≤ lim / 2
          ∧ (d.upgraded.take (lim / 2)).length ≤ lim / 2) := by
  intro d lim
  constructor
  · intro h
    simp [cell_html, h]
  · intro h
    refine ⟨?_, List.length_take_le _ _, List.length_take_le _ _⟩
    simp [cell_html, h]

theorem C9_witness :
    cell_html ⟨[], [], [], []⟩ 30 = "<div class=\x27empty\x27>No changes</div>" ∧
    cell_html ⟨["x"], [], [], []⟩ 4 =
      counts_line ⟨["x"], [], [], []⟩ ++ "<ul><li>x</li></ul>" := by
  constructor
  · exact (C9_cell_rendering ⟨[], [], [], []⟩ 30).1 rfl
  · have h := ((C9_cell_rendering ⟨["x"], [], [], []⟩ 4).2 (by decide)).1
    rw [h]
    decide

/-! ## C10: HTML escaping -/

/-- C10.  Every diff entry rendered in a cell goes through `escape` (the
`li_item` wrapper used for both the inline sample and the four-way
breakdown), every snapshot tag rendered as a column header goes through
`escape` (the `th_tag` wrapper of `build_report`), and escaped output never
contains a raw `<`, `>`, quote, or a `&` that does not begin one of the five
emitted entities. -/
theorem C10_html_escaping :
    (∀ s : String, escapedOkCL (escape s).data = true)
    ∧ (∀ s : String, li_item s = "<li>" ++ escape s ++ "</li>")
    ∧ (∀ t : String, th_tag t = "<th class=\x27taghdr\x27>" ++ escape t ++ "</th>")
    ∧ (∀ (title : String) (entries : List String),
        to_list title entries = "" ∨
        to_list title entries =
          "<h5>" ++ title ++ "</h5><ul>" ++ String.join (entries.map li_item) ++ "</ul>") := by
  refine ⟨?_, fun s => rfl, fun t => rfl, ?_⟩
  · intro s
    exact escapedOk_escapeCL s.data
  · intro title entries
    by_cases h : entries.isEmpty = true
    · left; simp [to_list, h]
    · right; simp [to_list, h]

end EEReport
